import Mathlib

/-!
Shallow embedding of the grist-api client used by the example invoice sync
application: JavaScript records, the batched table client (addRecords and
updateRecords), the reconciliation routine syncTable, a model of the remote
table service taken from the REST contract in the specification, and the
orchestrator request handlers getCopyInfo and onSync.
-/

namespace GristSync

/-- JavaScript primitive values as they occur in table records: undefined
(reading an absent column), null, booleans, numbers and strings.  Strict
equality on these values is structural equality. -/
inductive Value where
  | vundef : Value
  | vnull : Value
  | vbool : Bool → Value
  | vnum : Int → Value
  | vstr : String → Value
deriving DecidableEq, Repr

/-- A record is a JavaScript object: an insertion-ordered association list
from column identifiers to values.  Object keys are unique in JavaScript;
theorems that need this assume the key list has no duplicates. -/
abbrev Rec := List (String × Value)

/-- Property read rec[col]: the value of the first entry with the given
key, or undefined when the column is absent. -/
def getField (r : Rec) (c : String) : Value :=
  match r with
  | [] => .vundef
  | (k, v) :: rest => if k = c then v else getField rest c

/-- Object.keys. -/
def recKeys (r : Rec) : List String :=
  r.map Prod.fst

/-- Whether the object has an own property with the given name. -/
def hasCol (r : Rec) (c : String) : Bool :=
  (recKeys r).contains c

/-- Property write rec[col] = v: replaces the value in place when the key
exists, otherwise appends the key at the end, as JavaScript does. -/
def setField (r : Rec) (c : String) (v : Value) : Rec :=
  match r with
  | [] => [(c, v)]
  | (k, w) :: rest => if k = c then (k, v) :: rest else (k, w) :: setField rest c v

/-- JSON.stringify inside an array maps undefined to null and is injective
on the remaining primitive values (strings are quoted and escaped, numbers,
booleans and null have pairwise distinct spellings), so the serialized key
tuple produced by syncTable is modelled as the list of column values with
undefined collapsed to null. -/
def keyVal : Value → Value
  | .vundef => .vnull
  | v => v

/-- The composite key of syncTable:
JSON.stringify(keyColIds.map((colId) => rec[colId])), modelled as the tuple
of key column values under the keyVal collapse. -/
def makeKey (keyColIds : List String) (r : Rec) : List Value :=
  keyColIds.map (fun c => keyVal (getField r c))

/-- One Map entry list for the syncTable target index. -/
abbrev Index := List (List Value × Rec)

/-- Map.set: overwrite in place when the key is present, append otherwise. -/
def idxSet (m : Index) (k : List Value) (r : Rec) : Index :=
  match m with
  | [] => [(k, r)]
  | (k2, r2) :: rest => if k2 = k then (k2, r) :: rest else (k2, r2) :: idxSet rest k r

/-- Map.get. -/
def idxGet (m : Index) (k : List Value) : Option Rec :=
  match m with
  | [] => none
  | (k2, r) :: rest => if k2 = k then some r else idxGet rest k

/-- The gristRows index of syncTable: insert every fetched row under its
composite key, in fetch order, a later row overwriting an earlier one with
the same key. -/
def buildIndex (keyColIds : List String) (rows : List Rec) : Index :=
  rows.foldl (fun m r => idxSet m (makeKey keyColIds r) r) []

/-- A filter maps column identifiers to the list of acceptable values. -/
abbrev Filters := List (String × List Value)

/-- filterMatches from grist-api: every filter column lists the record
value among its acceptable values. -/
def filterMatches (r : Rec) (filters : Filters) : Bool :=
  filters.all (fun f => f.2.any (fun v => decide (v = getField r f.1)))

/-- Whether a record passes the optional filter of a syncTable call; with
no filter every record passes. -/
def passes (filters : Option Filters) (r : Rec) : Bool :=
  match filters with
  | some fs => filterMatches r fs
  | none => true

/-- The syncTable validation: every filter column must be a key column. -/
def keyColsOk (keyColIds : List String) (filters : Option Filters) : Bool :=
  match filters with
  | none => true
  | some fs => fs.all (fun f => keyColIds.contains f.1)

/-- Modelled from the spec: the remote GET endpoint returns the rows of the
table, keeping only those matching the filter when one is supplied (section
6 of the specification; the filter semantics is the one of filterMatches). -/
def fetchRows (table : List Rec) (filters : Option Filters) : List Rec :=
  match filters with
  | none => table
  | some fs => table.filter (fun r => filterMatches r fs)

/-- Recursion core of lodash chunk; the fuel only bounds the recursion
depth and one chunk consumes at least one element, so any fuel at least
the list length gives the chunk decomposition. -/
def chunksGo (n : Nat) : Nat → List α → List (List α)
  | _, [] => []
  | 0, _ :: _ => []
  | fuel + 1, x :: xs => (x :: xs.take (n - 1)) :: chunksGo n fuel (xs.drop (n - 1))

/-- lodash chunk: split a list into consecutive chunks of the given size;
a size of zero yields no chunks. -/
def chunksOf (n : Nat) (l : List α) : List (List α) :=
  if n = 0 then [] else chunksGo n l.length l

/-- Column-oriented request body: column identifier to the list of values,
one per record. -/
abbrev TableData := List (String × List Value)

/-- The allKeys accumulation of makeTableData: append each key of the
record not seen before, preserving first-occurrence order. -/
def addKeysOf (acc : List String) (r : Rec) : List String :=
  r.foldl (fun a kv => if a.contains kv.1 then a else a ++ [kv.1]) acc

/-- All column identifiers occurring in the records, in first-occurrence
order. -/
def allKeysOf (records : List Rec) : List String :=
  records.foldl addKeysOf []

/-- makeTableData from grist-api: convert a list of records into the
column-oriented representation; a record missing a column contributes
undefined. -/
def makeTableData (records : List Rec) : TableData :=
  (allKeysOf records).map (fun k => (k, records.map (fun r => getField r k)))

/-- addRecords: an empty input returns an empty id list with no request;
otherwise the records are chunked, one POST request is made per chunk, and
the returned ids of all chunks are concatenated in order.  The function
respond stands for the ids assigned by the remote service to one request. -/
def addRecords (chunkSize : Nat) (records : List Rec) (respond : TableData → List Int) :
    List TableData × List Int :=
  if records.length = 0 then ([], [])
  else
    let callData := (chunksOf chunkSize records).map makeTableData
    (callData, callData.foldl (fun results data => results ++ respond data) [])

/-- The POST request bodies issued by addRecords. -/
def addRecordsRequests (chunkSize : Nat) (records : List Rec) : List TableData :=
  if records.length = 0 then []
  else (chunksOf chunkSize records).map makeTableData

/-- The updateRecords validation of one record: rec.id must be truthy and
a number, that is a nonzero numeric id. -/
def validId (r : Rec) : Bool :=
  match getField r "id" with
  | .vnum n => decide (n ≠ 0)
  | _ => false

/-- Lexicographic code-unit comparison of the character lists of two
column identifiers, the default JavaScript array sort order. -/
def strListLe : List Char → List Char → Bool
  | [], _ => true
  | _ :: _, [] => false
  | a :: as, b :: bs =>
    if a.toNat < b.toNat then true
    else if b.toNat < a.toNat then false
    else strListLe as bs

/-- The string comparison used to sort column identifiers. -/
def strLe (a b : String) : Bool :=
  strListLe a.data b.data

instance strLeDecRel : DecidableRel (fun a b : String => strLe a b = true) :=
  fun a b => instDecidableEqBool (strLe a b) true

instance strLeTotal : IsTotal String (fun a b => strLe a b = true) := by
  constructor
  intro a b
  show strListLe a.data b.data = true ∨ strListLe b.data a.data = true
  generalize a.data = x
  generalize b.data = y
  induction x generalizing y with
  | nil => left; rfl
  | cons c cs ih =>
    match y with
    | [] => right; rfl
    | d :: ds =>
      by_cases h1 : c.toNat < d.toNat
      · left; simp [strListLe, h1]
      · by_cases h2 : d.toNat < c.toNat
        · right; simp [strListLe, h2]
        · rcases ih ds with h | h
          · left; simp [strListLe, h1, h2, h]
          · right; simp [strListLe, h1, h2, h]

instance strLeTrans : IsTrans String (fun a b => strLe a b = true) := by
  constructor
  intro a b c hab hbc
  show strListLe a.data c.data = true
  replace hab : strListLe a.data b.data = true := hab
  replace hbc : strListLe b.data c.data = true := hbc
  generalize hxa : a.data = x at hab
  generalize hyb : b.data = y at hab hbc
  generalize hzc : c.data = z at hbc
  clear hxa hyb hzc
  induction x generalizing y z with
  | nil => rfl
  | cons c1 cs ih =>
    match y, z with
    | [], _ => simp [strListLe] at hab
    | _ :: _, [] => simp [strListLe] at hbc
    | d :: ds, e :: es =>
      rcases Nat.lt_trichotomy c1.toNat d.toNat with h1 | h1 | h1
      · rcases Nat.lt_trichotomy d.toNat e.toNat with h2 | h2 | h2
        · simp [strListLe]; omega
        · simp [strListLe]; omega
        · simp only [strListLe] at hbc
          rw [if_neg (by omega), if_pos h2] at hbc
          cases hbc
      · rcases Nat.lt_trichotomy d.toNat e.toNat with h2 | h2 | h2
        · simp [strListLe]; omega
        · simp only [strListLe] at hab hbc ⊢
          rw [if_neg (by omega), if_neg (by omega)] at hab
          rw [if_neg (by omega), if_neg (by omega)] at hbc
          rw [if_neg (by omega), if_neg (by omega)]
          exact ih _ hab _ hbc
        · simp only [strListLe] at hbc
          rw [if_neg (by omega), if_pos h2] at hbc
          cases hbc
      · simp only [strListLe] at hab
        rw [if_neg (by omega), if_pos h1] at hab
        cases hab

instance strLeAntisymm : IsAntisymm String (fun a b => strLe a b = true) := by
  constructor
  intro a b hab hba
  replace hab : strListLe a.data b.data = true := hab
  replace hba : strListLe b.data a.data = true := hba
  have hdata : a.data = b.data := by
    generalize hxa : a.data = x at hab hba
    generalize hyb : b.data = y at hab hba
    clear hxa hyb
    induction x generalizing y with
    | nil =>
      match y with
      | [] => rfl
      | d :: ds => simp [strListLe] at hba
    | cons c cs ih =>
      match y with
      | [] => simp [strListLe] at hab
      | d :: ds =>
        rcases Nat.lt_trichotomy c.toNat d.toNat with h1 | h1 | h1
        · simp only [strListLe] at hba
          rw [if_neg (by omega), if_pos h1] at hba
          cases hba
        · simp only [strListLe] at hab hba
          rw [if_neg (by omega), if_neg (by omega)] at hab
          rw [if_neg (by omega), if_neg (by omega)] at hba
          have hch : c = d := Char.ext (UInt32.toNat.inj h1)
          rw [hch, ih ds hab hba]
        · simp only [strListLe] at hab
          rw [if_neg (by omega), if_pos h1] at hab
          cases hab
  cases a
  cases b
  simp only at hdata
  rw [hdata]

/-- The grouping key of updateRecords:
JSON.stringify(Object.keys(rec).sort()), modelled as the sorted key list
(JSON.stringify is injective on arrays of strings; the sort is the default
JavaScript sort on code units). -/
def sortKeys (r : Rec) : List String :=
  (recKeys r).insertionSort (fun a b => strLe a b = true)

/-- Append a record to its group, keeping group insertion order as a
JavaScript Map does. -/
def grpAdd (gs : List (List String × List Rec)) (k : List String) (r : Rec) :
    List (List String × List Rec) :=
  match gs with
  | [] => [(k, [r])]
  | (k2, rs) :: rest =>
    if k2 = k then (k2, rs ++ [r]) :: rest else (k2, rs) :: grpAdd rest k r

/-- The validation and grouping loop of updateRecords: stop with an error
at the first record without a valid id, otherwise group records by their
sorted key list. -/
def buildGroups (records : List Rec) : Except String (List (List String × List Rec)) :=
  records.foldlM (fun gs r =>
    if validId r then Except.ok (grpAdd gs (sortKeys r) r)
    else Except.error "updateRecord requires numeric id attribute in each record") []

/-- updateRecords: validate and group, then chunk each group and emit one
PATCH request body per chunk, groups in insertion order. -/
def updateRecords (chunkSize : Nat) (records : List Rec) : Except String (List TableData) :=
  (buildGroups records).map (fun gs =>
    gs.foldl (fun cd g => cd ++ (chunksOf chunkSize g.2).map makeTableData) [])

/-- The changed column set of syncTable: the columns of the source record
whose value differs, under strict equality, from the target record value. -/
def changedKeys (newRec oldRec : Rec) : List String :=
  (recKeys newRec).filter (fun c => decide (getField newRec c ≠ getField oldRec c))

/-- lodash pick: the sub-record of r on the listed columns, in list order,
keeping only columns the record has. -/
def pickRec (r : Rec) : List String → Rec
  | [] => []
  | c :: cols => (if hasCol r c then [(c, getField r c)] else []) ++ pickRec r cols

/-- The update operation enqueued by syncTable for one changed row: the
changed columns of the source record plus the id of the existing record. -/
def mkUpdate (newRec oldRec : Rec) (ck : List String) : Rec :=
  setField (pickRec newRec ck) "id" (getField oldRec "id")

/-- One iteration of the syncTable planning loop over a source record:
skip it when it fails the filter; when its key is in the index enqueue an
update if some column changed; otherwise enqueue an addition. -/
def planStep (keyColIds : List String) (filters : Option Filters) (idx : Index)
    (acc : List Rec × List Rec) (newRec : Rec) : List Rec × List Rec :=
  if passes filters newRec = false then acc
  else
    match idxGet idx (makeKey keyColIds newRec) with
    | some oldRec =>
      let ck := changedKeys newRec oldRec
      if ck.length > 0 then (acc.1 ++ [mkUpdate newRec oldRec ck], acc.2) else acc
    | none => (acc.1, acc.2 ++ [newRec])

/-- The Sync Plan of one syncTable call: the update list and the add list
computed by folding the planning loop over the source records. -/
def syncPlan (keyColIds : List String) (filters : Option Filters)
    (rows : List Rec) (records : List Rec) : List Rec × List Rec :=
  records.foldl (planStep keyColIds filters (buildIndex keyColIds rows)) ([], [])

/-- The update operations one source record contributes to the plan, all
computed against the original index. -/
def planUpd (keyColIds : List String) (filters : Option Filters) (idx : Index)
    (newRec : Rec) : List Rec :=
  if passes filters newRec = false then []
  else
    match idxGet idx (makeKey keyColIds newRec) with
    | some oldRec =>
      let ck := changedKeys newRec oldRec
      if ck.length > 0 then [mkUpdate newRec oldRec ck] else []
    | none => []

/-- The add operations one source record contributes to the plan. -/
def planAdd (keyColIds : List String) (filters : Option Filters) (idx : Index)
    (newRec : Rec) : List Rec :=
  if passes filters newRec = false then []
  else
    match idxGet idx (makeKey keyColIds newRec) with
    | some _ => []
    | none => [newRec]

/-- syncTable: validate that filter columns are key columns, fetch the
target rows, compute the plan, then issue the update requests followed by
the add requests.  The result carries the plan and the request bodies in
issue order; an error from validation or from updateRecords aborts the
call. -/
def syncTable (chunkSize : Nat) (keyColIds : List String) (filters : Option Filters)
    (table : List Rec) (records : List Rec) :
    Except String ((List Rec × List Rec) × List TableData) :=
  if keyColsOk keyColIds filters = false then
    Except.error "syncTable requires key columns to include all filter columns"
  else
    let plan := syncPlan keyColIds filters (fetchRows table filters) records
    (updateRecords chunkSize plan.1).map (fun updReqs =>
      (plan, updReqs ++ addRecordsRequests chunkSize plan.2))

/-- The id column of a record. -/
def idOf (r : Rec) : Value :=
  getField r "id"

/-- Modelled from the spec: applying one PATCH update merges the supplied
columns into the row, column by column. -/
def mergeRec (row upd : Rec) : Rec :=
  upd.foldl (fun r kv => setField r kv.1 kv.2) row

/-- Modelled from the spec: the remote service applies an update to every
row whose id equals the id of the update. -/
def applyUpdate (rows : List Rec) (upd : Rec) : List Rec :=
  rows.map (fun row => if idOf row = idOf upd then mergeRec row upd else row)

/-- Modelled from the spec: the updates of a plan are applied in order. -/
def applyUpdates (rows : List Rec) (upds : List Rec) : List Rec :=
  upds.foldl applyUpdate rows

/-- Numeric view of an id value, zero for anything not a number. -/
def intOfId : Value → Int
  | .vnum n => n
  | _ => 0

/-- Modelled from the spec: the remote service assigns a fresh row id,
larger than every id in the table. -/
def freshId (rows : List Rec) : Int :=
  1 + rows.foldl (fun m r => max m (intOfId (idOf r))) 0

/-- Modelled from the spec: adding a record appends a new row holding the
record columns and a freshly assigned id. -/
def addRow (rows : List Rec) (newRec : Rec) : List Rec :=
  rows ++ [setField newRec "id" (.vnum (freshId rows))]

/-- Modelled from the spec: the additions of a plan are applied in order,
each receiving a fresh id. -/
def applyAdds (rows : List Rec) (adds : List Rec) : List Rec :=
  adds.foldl addRow rows

/-- The suffix of rows a list of additions appends to the table. -/
def addsWithIds (rows : List Rec) : List Rec → List Rec
  | [] => []
  | a :: as =>
    let r := setField a "id" (.vnum (freshId rows))
    r :: addsWithIds (rows ++ [r]) as

/-- Modelled from the spec: the remote state after one syncTable call, the
updates applied first, then the additions. -/
def applyPlan (rows : List Rec) (plan : List Rec × List Rec) : List Rec :=
  applyAdds (applyUpdates rows plan.1) plan.2

/-- The last element of the list satisfying the predicate. -/
def findLastP (p : α → Bool) (l : List α) : Option α :=
  l.reverse.find? p

/-- The effect of a list of updates on one row: merge the unique update
carrying the row id, if any. -/
def rowPatch (us : List Rec) (t : Rec) : Rec :=
  match us.find? (fun u => decide (idOf u = idOf t)) with
  | some u => mergeRec t u
  | none => t

/-- The predicate selecting rows that pass the filter and carry the given
composite key. -/
def rowPred (F : Option Filters) (K : List String) (k : List Value) (x : Rec) : Bool :=
  passes F x && decide (makeKey K x = k)

deriving instance DecidableEq for Except

/-- Decidable equality of the syncTable result payload, assembled
explicitly because automatic synthesis exceeds the default search size. -/
instance : DecidableEq ((List Rec × List Rec) × List TableData) :=
  instDecidableEqProd

/-- The three responses an orchestrator handler can produce: a normal
send, a status plus structured error body, or delegation to the framework
error handler via next(err). -/
inductive HResponse where
  | send : Rec → HResponse
  | errorBody : Nat → String → HResponse
  | nextCall : String → HResponse
deriving DecidableEq, Repr

/-- The try block of getCopyInfo: validate the invoice id, look the
invoice up in the source document, read the destination document id, fetch
the destination invoice and the document info, and build the response
object.  The remote call outcomes are inputs. -/
def getCopyInfoBody (server : String) (invoiceId : Option Int)
    (srcFetch : Except String (List Rec)) (destFetch : Except String (List Rec))
    (docInfo : Except String Rec) : Except String Rec := do
  let _ ← (match invoiceId with
    | some n =>
      if n = 0 then Except.error "Invalid or missing invoiceId" else Except.ok n
    | none => Except.error "Invalid or missing invoiceId")
  let srcRows ← srcFetch
  let sourceInvoice ← (match srcRows.head? with
    | some r => Except.ok r
    | none => Except.error "Invoice not found")
  let destDocId ← (match getField sourceInvoice "InvoicerDocId" with
    | .vstr s => if s = "" then Except.error "DestDocId missing or invalid" else Except.ok s
    | _ => Except.error "DestDocId missing or invalid")
  let destRows ← destFetch
  let info ← docInfo
  Except.ok (mergeRec
    [("DocUrl", .vstr (server ++ "/doc/" ++ destDocId)),
     ("DocName", getField info "name")]
    (destRows.head?.getD []))

/-- getCopyInfo: any error of the body becomes a status 400 response with
a structured error field. -/
def getCopyInfo (server : String) (invoiceId : Option Int)
    (srcFetch : Except String (List Rec)) (destFetch : Except String (List Rec))
    (docInfo : Except String Rec) : HResponse :=
  match getCopyInfoBody server invoiceId srcFetch destFetch docInfo with
  | .ok r => .send r
  | .error e => .errorBody 400 e

/-- The try block of onSync: validate the invoice id, look up the source
invoice and its items, read the destination document id, sync the invoice,
re-fetch it, sync the items under a filter on the new invoice id, and
compute the stale destination items to delete.  Whole tables of the
destination document and the remote call outcomes are inputs; the remote
effect of each sync is applyPlan. -/
def onSyncBody (chunkSize : Nat) (now : Value) (invoiceId : Option Int)
    (srcFetch : Except String (List Rec)) (itemsFetch : Except String (List Rec))
    (destInvoices : List Rec) (destItems : List Rec) : Except String Rec := do
  let iid ← (match invoiceId with
    | some n =>
      if n = 0 then Except.error "Invalid or missing invoiceId" else Except.ok n
    | none => Except.error "Invalid or missing invoiceId")
  let srcRows ← srcFetch
  let sourceInvoice ← (match srcRows.head? with
    | some r => Except.ok r
    | none => Except.error "Invoice not found")
  let sourceItems ← itemsFetch
  let _ ← (match getField sourceInvoice "InvoicerDocId" with
    | .vstr s => if s = "" then Except.error "DestDocId missing or invalid" else Except.ok s
    | _ => Except.error "DestDocId missing or invalid")
  let invoiceCopy :=
    setField (pickRec sourceInvoice ["Invoice_ID", "Date", "CustomerJson"]) "Last_Sync" now
  let sync1 ← syncTable chunkSize ["Invoice_ID"] none destInvoices [invoiceCopy]
  let destInvoices2 := applyPlan destInvoices sync1.1
  let destInvoice ← (match
      (fetchRows destInvoices2 (some [("Invoice_ID", [.vnum iid])])).head? with
    | some r => Except.ok r
    | none => Except.error "Invoice failed to sync")
  let itemsCopy := sourceItems.map (fun si =>
    setField (pickRec si ["Description", "Unit_Price", "Quantity"]) "Invoice" (idOf destInvoice))
  let itemFilter : Filters := [("Invoice", [idOf destInvoice])]
  let sync2 ← syncTable chunkSize ["Invoice", "Description"] (some itemFilter)
    destItems itemsCopy
  let destItems2 := applyPlan destItems sync2.1
  let fetched := fetchRows destItems2 (some itemFilter)
  let _stale := fetched.filter (fun i =>
    !(itemsCopy.any (fun c => decide (getField c "Description" = getField i "Description"))))
  Except.ok [("id", idOf destInvoice)]

/-- onSync: an error of the body is passed to next(err), not converted to
a structured error response. -/
def onSync (chunkSize : Nat) (now : Value) (invoiceId : Option Int)
    (srcFetch : Except String (List Rec)) (itemsFetch : Except String (List Rec))
    (destInvoices : List Rec) (destItems : List Rec) : HResponse :=
  match onSyncBody chunkSize now invoiceId srcFetch itemsFetch destInvoices destItems with
  | .ok r => .send r
  | .error e => .nextCall e

/-! Basic lemmas about record field access and updates. -/

theorem getField_setField (r : Rec) (c c2 : String) (v : Value) :
    getField (setField r c v) c2 = if c2 = c then v else getField r c2 := by
  induction r with
  | nil =>
    by_cases h : c2 = c
    · simp [setField, getField, h]
    · simp [setField, getField, h, Ne.symm h]
  | cons kv rest ih =>
    obtain ⟨k, w⟩ := kv
    by_cases hkc : k = c <;> by_cases h2 : c2 = c
    · subst hkc; subst h2; simp [setField, getField]
    · subst hkc
      have h3 : ¬ k = c2 := fun h => h2 h.symm
      simp [setField, getField, h2, h3]
    · subst h2
      simp [setField, getField, hkc, ih]
    · by_cases h4 : k = c2
      · subst h4; simp [setField, getField, hkc, h2]
      · simp [setField, getField, hkc, h2, h4, ih]

theorem hasCol_iff (r : Rec) (c : String) : hasCol r c = true ↔ c ∈ recKeys r := by
  simp [hasCol, List.elem_iff, List.contains]

theorem getField_eq_vundef (r : Rec) (c : String) (h : c ∉ recKeys r) :
    getField r c = .vundef := by
  induction r with
  | nil => rfl
  | cons kv rest ih =>
    obtain ⟨k, w⟩ := kv
    simp only [recKeys, List.map_cons, List.mem_cons, not_or] at h
    have h1 : ¬ k = c := fun h2 => h.1 h2.symm
    simp only [getField, if_neg h1]
    exact ih h.2

theorem getField_append (l1 l2 : Rec) (c : String) :
    getField (l1 ++ l2) c = if c ∈ recKeys l1 then getField l1 c else getField l2 c := by
  induction l1 with
  | nil => simp [getField, recKeys]
  | cons kv rest ih =>
    obtain ⟨k, w⟩ := kv
    by_cases h : k = c
    · subst h; simp [getField, recKeys]
    · have h2 : ¬ c = k := fun h2 => h h2.symm
      have hmem : (c ∈ recKeys ((k, w) :: rest)) ↔ c ∈ recKeys rest := by
        simp [recKeys, List.mem_cons, h2]
      have hval : getField ((k, w) :: rest) c = getField rest c := by
        show (if k = c then w else getField rest c) = _
        rw [if_neg h]
      rw [List.cons_append]
      show (if k = c then w else getField (rest ++ l2) c) = _
      rw [if_neg h, ih, hval, if_congr hmem rfl rfl]

theorem mem_recKeys_setField (r : Rec) (c c2 : String) (v : Value) :
    c2 ∈ recKeys (setField r c v) ↔ c2 ∈ recKeys r ∨ c2 = c := by
  induction r with
  | nil => simp [setField, recKeys]
  | cons kv rest ih =>
    obtain ⟨k, w⟩ := kv
    by_cases hkc : k = c
    · subst hkc
      have hs : setField ((k, w) :: rest) k v = (k, v) :: rest := by simp [setField]
      rw [hs]
      simp only [recKeys, List.map_cons, List.mem_cons]
      tauto
    · have hs : setField ((k, w) :: rest) c v = (k, w) :: setField rest c v := by
        simp [setField, hkc]
      rw [hs]
      simp only [recKeys, List.map_cons, List.mem_cons]
      have ih2 := ih
      simp only [recKeys] at ih2
      rw [ih2]
      tauto

theorem recKeys_setField_not_mem (r : Rec) (c : String) (v : Value) (h : c ∉ recKeys r) :
    recKeys (setField r c v) = recKeys r ++ [c] := by
  induction r with
  | nil => simp [setField, recKeys]
  | cons kv rest ih =>
    obtain ⟨k, w⟩ := kv
    simp only [recKeys, List.map_cons, List.mem_cons, not_or] at h
    have h1 : ¬ k = c := fun h2 => h.1 h2.symm
    simp only [setField, if_neg h1, recKeys, List.map_cons, List.cons_append]
    have := ih h.2
    simp only [recKeys] at this
    rw [this]

/-! Lemmas about lodash pick. -/

theorem recKeys_pickRec (r : Rec) (cols : List String) :
    recKeys (pickRec r cols) = cols.filter (fun c => hasCol r c) := by
  induction cols with
  | nil => rfl
  | cons c0 cols ih =>
    simp only [pickRec, List.filter_cons]
    by_cases h : hasCol r c0 = true
    · have ih2 := ih
      simp only [recKeys] at ih2 ⊢
      simp [h, ih2]
    · simp [if_neg h, ih, h]

theorem mem_recKeys_pickRec (r : Rec) (cols : List String) (c : String) :
    c ∈ recKeys (pickRec r cols) ↔ c ∈ cols ∧ c ∈ recKeys r := by
  rw [recKeys_pickRec, List.mem_filter, hasCol_iff]

theorem getField_pickRec (r : Rec) (cols : List String) (c : String) :
    getField (pickRec r cols) c
      = if c ∈ cols ∧ c ∈ recKeys r then getField r c else .vundef := by
  induction cols with
  | nil => simp [pickRec, getField]
  | cons c0 cols ih =>
    simp only [pickRec]
    rw [getField_append, ih]
    by_cases h : hasCol r c0 = true
    · by_cases hcc : c = c0
      · subst hcc
        have hc : c ∈ recKeys r := (hasCol_iff r c).mp h
        have hm : c ∈ recKeys (if hasCol r c = true then [(c, getField r c)] else []) := by
          simp [h, recKeys]
        rw [if_pos hm]
        have hv : getField (if hasCol r c = true then [(c, getField r c)] else []) c
            = getField r c := by
          simp [h, getField]
        rw [hv, if_pos ⟨List.mem_cons_self c cols, hc⟩]
      · have hnotm : c ∉ recKeys (if hasCol r c0 = true then [(c0, getField r c0)] else []) := by
          simp [h, recKeys, hcc]
        rw [if_neg hnotm]
        by_cases h2 : c ∈ cols ∧ c ∈ recKeys r
        · rw [if_pos h2, if_pos ⟨List.mem_cons_of_mem _ h2.1, h2.2⟩]
        · rw [if_neg h2, if_neg]
          rintro ⟨h3, h4⟩
          rcases List.mem_cons.mp h3 with h5 | h5
          · exact hcc h5
          · exact h2 ⟨h5, h4⟩
    · have hc0 : c0 ∉ recKeys r := fun hm => h ((hasCol_iff r c0).mpr hm)
      have hnotm : c ∉ recKeys (if hasCol r c0 = true then [(c0, getField r c0)] else []) := by
        simp [h, recKeys]
      rw [if_neg hnotm]
      by_cases h2 : c ∈ cols ∧ c ∈ recKeys r
      · rw [if_pos h2, if_pos ⟨List.mem_cons_of_mem _ h2.1, h2.2⟩]
      · rw [if_neg h2, if_neg]
        rintro ⟨h3, h4⟩
        rcases List.mem_cons.mp h3 with h5 | h5
        · subst h5; exact hc0 h4
        · exact h2 ⟨h5, h4⟩

/-! Lemmas about changed keys and the enqueued update. -/

theorem mem_changedKeys (s r : Rec) (c : String) :
    c ∈ changedKeys s r ↔ c ∈ recKeys s ∧ getField s c ≠ getField r c := by
  simp [changedKeys, List.mem_filter]

theorem changedKeys_eq_nil (s r : Rec) :
    changedKeys s r = [] ↔ ∀ c ∈ recKeys s, getField s c = getField r c := by
  simp [changedKeys, List.filter_eq_nil_iff]

theorem getField_mkUpdate_id (s old : Rec) (ck : List String) :
    getField (mkUpdate s old ck) "id" = getField old "id" := by
  simp [mkUpdate, getField_setField]

theorem getField_mkUpdate (s old : Rec) (ck : List String) (c : String) (h : ¬ c = "id") :
    getField (mkUpdate s old ck) c
      = if c ∈ ck ∧ c ∈ recKeys s then getField s c else .vundef := by
  rw [mkUpdate, getField_setField, if_neg h, getField_pickRec]

theorem mem_recKeys_mkUpdate (s old : Rec) (ck : List String) (c : String) :
    c ∈ recKeys (mkUpdate s old ck) ↔ (c ∈ ck ∧ c ∈ recKeys s) ∨ c = "id" := by
  rw [mkUpdate, mem_recKeys_setField, mem_recKeys_pickRec]

/-! Lemmas about the Map model and the target index. -/

theorem idxGet_idxSet (m : Index) (k k2 : List Value) (r : Rec) :
    idxGet (idxSet m k r) k2 = if k2 = k then some r else idxGet m k2 := by
  induction m with
  | nil =>
    by_cases h : k2 = k
    · simp [idxSet, idxGet, h]
    · simp [idxSet, idxGet, h, Ne.symm h]
  | cons e rest ih =>
    obtain ⟨ek, er⟩ := e
    by_cases h1 : ek = k
    · subst h1
      by_cases h2 : k2 = ek
      · simp [idxSet, idxGet, h2]
      · simp [idxSet, idxGet, h2, Ne.symm h2]
    · by_cases h2 : ek = k2
      · subst h2
        have h4 : ¬ k = ek := fun hh => h1 hh.symm
        simp [idxSet, idxGet, h1, h4]
      · simp [idxSet, idxGet, h1, h2, ih]

/-! Lemmas about last-match search. -/

theorem findLastP_eq_none {p : α → Bool} {l : List α} (h : ∀ x ∈ l, ¬ p x = true) :
    findLastP p l = none := by
  apply List.find?_eq_none.mpr
  intro x hx
  exact h x (List.mem_reverse.mp hx)

theorem findLastP_some {p : α → Bool} {l : List α} {a : α} (h : findLastP p l = some a) :
    p a = true ∧ a ∈ l :=
  ⟨List.find?_some h, List.mem_reverse.mp (List.mem_of_find?_eq_some h)⟩

theorem findLastP_append (p : α → Bool) (l1 l2 : List α) :
    findLastP p (l1 ++ l2) = (findLastP p l2).or (findLastP p l1) := by
  show (l1 ++ l2).reverse.find? p = _
  rw [List.reverse_append, List.find?_append]
  rfl

theorem findLastP_map (p : β → Bool) (f : α → β) (l : List α) :
    findLastP p (l.map f) = (findLastP (fun a => p (f a)) l).map f := by
  show (l.map f).reverse.find? p = _
  rw [← List.map_reverse, List.find?_map]
  rfl

theorem find?_filter (p q : α → Bool) (l : List α) :
    (l.filter q).find? p = l.find? (fun x => q x && p x) := by
  induction l with
  | nil => rfl
  | cons x xs ih =>
    by_cases hq : q x = true
    · by_cases hp : p x = true
      · simp [List.filter_cons, hq, hp, List.find?_cons_of_pos]
      · rw [List.filter_cons, if_pos hq, List.find?_cons_of_neg _ hp,
          List.find?_cons_of_neg _ (by simp [hq, hp]), ih]
    · rw [List.filter_cons, if_neg hq, List.find?_cons_of_neg _ (by simp [hq]), ih]

theorem findLastP_filter (p q : α → Bool) (l : List α) :
    findLastP p (l.filter q) = findLastP (fun x => q x && p x) l := by
  show (l.filter q).reverse.find? p = _
  rw [← List.filter_reverse, find?_filter]
  rfl

theorem find?_congr_of_mem {p q : α → Bool} {l : List α} (h : ∀ x ∈ l, p x = q x) :
    l.find? p = l.find? q := by
  induction l with
  | nil => rfl
  | cons x xs ih =>
    have hx := h x (List.mem_cons_self x xs)
    have ih2 := ih (fun y hy => h y (List.mem_cons_of_mem _ hy))
    by_cases hp : p x = true
    · rw [List.find?_cons_of_pos _ hp, List.find?_cons_of_pos _ (hx ▸ hp)]
    · rw [List.find?_cons_of_neg _ hp, List.find?_cons_of_neg _ (hx ▸ hp), ih2]

theorem findLastP_congr {p q : α → Bool} {l : List α} (h : ∀ x ∈ l, p x = q x) :
    findLastP p l = findLastP q l :=
  find?_congr_of_mem (fun x hx => h x (List.mem_reverse.mp hx))

theorem findLastP_isSome {p : α → Bool} {l : List α} {x : α} (hx : x ∈ l) (hp : p x = true) :
    ∃ a, findLastP p l = some a := by
  cases h : findLastP p l with
  | some a => exact ⟨a, rfl⟩
  | none =>
    exact absurd hp (List.find?_eq_none.mp h x (List.mem_reverse.mpr hx))

theorem find?_eq_some_of_unique {p : α → Bool} {l : List α} {u : α} (hu : u ∈ l)
    (hpu : p u = true) (huniq : ∀ v ∈ l, p v = true → v = u) : l.find? p = some u := by
  induction l with
  | nil => cases hu
  | cons x xs ih =>
    by_cases hp : p x = true
    · have := huniq x (List.mem_cons_self x xs) hp
      rw [List.find?_cons_of_pos _ hp, this]
    · rw [List.find?_cons_of_neg _ hp]
      rcases List.mem_cons.mp hu with h | h
      · subst h; exact absurd hpu hp
      · exact ih h (fun v hv hpv => huniq v (List.mem_cons_of_mem _ hv) hpv)

theorem findLastP_eq_some_of_unique {p : α → Bool} {l : List α} {u : α} (hu : u ∈ l)
    (hpu : p u = true) (huniq : ∀ v ∈ l, p v = true → v = u) :
    findLastP p l = some u :=
  find?_eq_some_of_unique (List.mem_reverse.mpr hu) hpu
    (fun v hv => huniq v (List.mem_reverse.mp hv))

theorem idxGet_buildIndex (K : List String) (rows : List Rec) (k : List Value) :
    idxGet (buildIndex K rows) k
      = findLastP (fun r => decide (makeKey K r = k)) rows := by
  suffices h : ∀ (m : Index),
      idxGet (rows.foldl (fun m r => idxSet m (makeKey K r) r) m) k
        = ((findLastP (fun r => decide (makeKey K r = k)) rows).or (idxGet m k)) by
    have h2 := h []
    simpa [buildIndex, idxGet] using h2
  induction rows with
  | nil => intro m; simp [findLastP]
  | cons r rest ih =>
    intro m
    rw [List.foldl_cons, ih]
    have hsplit : findLastP (fun r2 => decide (makeKey K r2 = k)) (r :: rest)
        = ((findLastP (fun r2 => decide (makeKey K r2 = k)) rest).or
           (findLastP (fun r2 => decide (makeKey K r2 = k)) [r])) := by
      have h3 := findLastP_append (fun r2 => decide (makeKey K r2 = k)) [r] rest
      simpa using h3
    rw [hsplit, idxGet_idxSet]
    cases hrest : findLastP (fun r2 => decide (makeKey K r2 = k)) rest with
    | some a => simp [Option.or]
    | none =>
      by_cases hk : makeKey K r = k
      · simp [findLastP, List.find?, hk, Option.or]
      · have h4 : ¬ k = makeKey K r := fun hh => hk hh.symm
        simp [findLastP, List.find?, hk, h4, Option.or]

/-! Folding collectors into flattened maps. -/

theorem foldl_append_eq (l : List α) (f : α → List β) (acc : List β) :
    l.foldl (fun r a => r ++ f a) acc = acc ++ (l.map f).flatten := by
  induction l generalizing acc with
  | nil => simp
  | cons x xs ih => simp [ih, List.append_assoc]

theorem planStep_eq (K : List String) (F : Option Filters) (idx : Index)
    (acc : List Rec × List Rec) (s : Rec) :
    planStep K F idx acc s = (acc.1 ++ planUpd K F idx s, acc.2 ++ planAdd K F idx s) := by
  by_cases hp : passes F s = false
  · simp [planStep, planUpd, planAdd, hp]
  · simp only [planStep, planUpd, planAdd, if_neg hp]
    cases h : idxGet idx (makeKey K s) with
    | some old =>
      by_cases hck : (changedKeys s old).length > 0
      · simp [hck]
      · simp [hck]
    | none => simp

theorem syncPlan_eq (K : List String) (F : Option Filters) (rows records : List Rec) :
    syncPlan K F rows records
      = ((records.map (planUpd K F (buildIndex K rows))).flatten,
         (records.map (planAdd K F (buildIndex K rows))).flatten) := by
  suffices h : ∀ acc, records.foldl (planStep K F (buildIndex K rows)) acc
      = (acc.1 ++ (records.map (planUpd K F (buildIndex K rows))).flatten,
         acc.2 ++ (records.map (planAdd K F (buildIndex K rows))).flatten) by
    simpa [syncPlan] using h ([], [])
  induction records with
  | nil => intro acc; simp
  | cons s ss ih =>
    intro acc
    rw [List.foldl_cons, planStep_eq, ih]
    simp [List.append_assoc]

/-! Lemmas about chunking. -/

theorem chunksGo_flatten {n : Nat} (_hn : 0 < n) :
    ∀ (fuel : Nat) (l : List α), l.length ≤ fuel → (chunksGo n fuel l).flatten = l := by
  intro fuel
  induction fuel with
  | zero =>
    intro l hl
    match l with
    | [] => rfl
    | x :: xs => simp at hl
  | succ f ih =>
    intro l hl
    match l with
    | [] => rfl
    | x :: xs =>
      simp only [chunksGo, List.flatten_cons]
      rw [ih (xs.drop (n - 1)) (by simp only [List.length_drop]; simp at hl; omega)]
      simp [List.take_append_drop]

theorem chunksOf_flatten {n : Nat} (hn : 0 < n) (l : List α) :
    (chunksOf n l).flatten = l := by
  rw [chunksOf, if_neg (Nat.pos_iff_ne_zero.mp hn)]
  exact chunksGo_flatten hn l.length l le_rfl

theorem chunksGo_length {n : Nat} (hn : 0 < n) :
    ∀ (fuel : Nat) (l : List α), l.length ≤ fuel →
      (chunksGo n fuel l).length = (l.length + n - 1) / n := by
  intro fuel
  induction fuel with
  | zero =>
    intro l hl
    match l with
    | [] =>
      simp only [chunksGo, List.length_nil]
      rw [Nat.div_eq_of_lt (by omega)]
    | x :: xs => simp at hl
  | succ f ih =>
    intro l hl
    match l with
    | [] =>
      simp only [chunksGo, List.length_nil]
      rw [Nat.div_eq_of_lt (by omega)]
    | x :: xs =>
      simp only [chunksGo, List.length_cons]
      rw [ih (xs.drop (n - 1)) (by simp only [List.length_drop]; simp at hl; omega)]
      simp only [List.length_drop]
      rcases Nat.lt_or_ge xs.length (n - 1) with h | h
      · have h1 : xs.length - (n - 1) = 0 := by omega
        have h2 : xs.length + 1 + n - 1 = xs.length + n := by omega
        rw [h1, h2, Nat.add_div_right _ hn, Nat.div_eq_of_lt (by omega),
          Nat.div_eq_of_lt (by omega)]
      · have h1 : xs.length - (n - 1) + n - 1 = xs.length := by omega
        have h2 : xs.length + 1 + n - 1 = xs.length + n := by omega
        rw [h1, h2, Nat.add_div_right _ hn, Nat.add_comm]

theorem chunksOf_length {n : Nat} (hn : 0 < n) (l : List α) :
    (chunksOf n l).length = (l.length + n - 1) / n := by
  rw [chunksOf, if_neg (Nat.pos_iff_ne_zero.mp hn)]
  exact chunksGo_length hn l.length l le_rfl

theorem chunksGo_mem_length {n : Nat} (_hn : 0 < n) :
    ∀ (fuel : Nat) (l : List α) (c : List α), c ∈ chunksGo n fuel l → c.length ≤ n := by
  intro fuel
  induction fuel with
  | zero =>
    intro l c hc
    match l with
    | [] => cases hc
    | x :: xs => cases hc
  | succ f ih =>
    intro l c hc
    match l with
    | [] => cases hc
    | x :: xs =>
      simp only [chunksGo, List.mem_cons] at hc
      rcases hc with h | h
      · subst h
        simp only [List.length_cons, List.length_take]
        omega
      · exact ih _ _ h

theorem chunksOf_mem_length {n : Nat} (hn : 0 < n) {l c : List α}
    (hc : c ∈ chunksOf n l) : c.length ≤ n := by
  rw [chunksOf, if_neg (Nat.pos_iff_ne_zero.mp hn)] at hc
  exact chunksGo_mem_length hn l.length l c hc

/-! Lemmas about update validation and grouping. -/

theorem buildGroups_go_ok :
    ∀ (records : List Rec) (init : List (List String × List Rec)),
      (∀ r ∈ records, validId r = true) →
      ∃ gs, records.foldlM (fun gs r =>
          if validId r then Except.ok (grpAdd gs (sortKeys r) r)
          else Except.error "updateRecord requires numeric id attribute in each record")
        init = Except.ok gs := by
  intro records
  induction records with
  | nil => intro init h; exact ⟨init, rfl⟩
  | cons r rs ih =>
    intro init h
    have hr : validId r = true := h r (List.mem_cons_self r rs)
    have ⟨gs, hgs⟩ := ih (grpAdd init (sortKeys r) r)
      (fun x hx => h x (List.mem_cons_of_mem _ hx))
    refine ⟨gs, ?_⟩
    rw [List.foldlM_cons, if_pos hr]
    exact hgs

theorem buildGroups_ok {records : List Rec} (h : ∀ r ∈ records, validId r = true) :
    ∃ gs, buildGroups records = Except.ok gs :=
  buildGroups_go_ok records [] h

theorem updateRecords_ok {cs : Nat} {records : List Rec}
    (h : ∀ r ∈ records, validId r = true) :
    ∃ reqs, updateRecords cs records = Except.ok reqs := by
  have ⟨gs, hgs⟩ := buildGroups_ok h
  exact ⟨_, by rw [updateRecords, hgs]; rfl⟩

theorem buildGroups_go_error :
    ∀ (records : List Rec) (init : List (List String × List Rec)) (r : Rec),
      r ∈ records → validId r = false →
      records.foldlM (fun gs r =>
          if validId r then Except.ok (grpAdd gs (sortKeys r) r)
          else Except.error "updateRecord requires numeric id attribute in each record")
        init = Except.error "updateRecord requires numeric id attribute in each record" := by
  intro records
  induction records with
  | nil => intro init r hr; cases hr
  | cons x xs ih =>
    intro init r hr hbad
    rcases List.mem_cons.mp hr with h | h
    · subst h
      rw [List.foldlM_cons, if_neg (by simp [hbad])]
      rfl
    · by_cases hx : validId x = true
      · rw [List.foldlM_cons, if_pos hx]
        exact ih _ r h hbad
      · rw [List.foldlM_cons, if_neg hx]
        rfl

theorem buildGroups_error {records : List Rec} {r : Rec} (hr : r ∈ records)
    (hbad : validId r = false) :
    buildGroups records
      = Except.error "updateRecord requires numeric id attribute in each record" :=
  buildGroups_go_error records [] r hr hbad

theorem buildGroups_go_error_msg :
    ∀ (records : List Rec) (init : List (List String × List Rec)) (e : String),
      records.foldlM (fun gs r =>
          if validId r then Except.ok (grpAdd gs (sortKeys r) r)
          else Except.error "updateRecord requires numeric id attribute in each record")
        init = Except.error e →
      e = "updateRecord requires numeric id attribute in each record" := by
  intro records
  induction records with
  | nil => intro init e h; cases h
  | cons x xs ih =>
    intro init e h
    by_cases hx : validId x = true
    · rw [List.foldlM_cons, if_pos hx] at h
      exact ih _ e h
    · rw [List.foldlM_cons, if_neg hx] at h
      cases h
      rfl

theorem updateRecords_error_msg {cs : Nat} {records : List Rec} {e : String}
    (h : updateRecords cs records = Except.error e) :
    e = "updateRecord requires numeric id attribute in each record" := by
  rw [updateRecords] at h
  cases hb : buildGroups records with
  | ok gs => rw [hb] at h; cases h
  | error e2 =>
    rw [hb] at h
    simp only [Except.map] at h
    cases h
    exact buildGroups_go_error_msg records [] _ hb

/-! Membership lemmas for the plan contributions. -/

theorem mem_planUpd {K : List String} {F : Option Filters} {idx : Index} {s u : Rec}
    (h : u ∈ planUpd K F idx s) :
    passes F s = true ∧ ∃ old, idxGet idx (makeKey K s) = some old ∧
      (changedKeys s old).length > 0 ∧ u = mkUpdate s old (changedKeys s old) := by
  by_cases hp : passes F s = false
  · simp [planUpd, hp] at h
  · have hp2 : passes F s = true := by
      cases h2 : passes F s
      · exact absurd h2 hp
      · rfl
    refine ⟨hp2, ?_⟩
    simp only [planUpd, if_neg hp] at h
    cases hidx : idxGet idx (makeKey K s) with
    | some old =>
      rw [hidx] at h
      by_cases hck : (changedKeys s old).length > 0
      · simp only [if_pos hck, List.mem_singleton] at h
        exact ⟨old, rfl, hck, h⟩
      · simp [if_neg hck] at h
    | none => rw [hidx] at h; cases h

theorem mem_planAdd {K : List String} {F : Option Filters} {idx : Index} {s a : Rec}
    (h : a ∈ planAdd K F idx s) :
    passes F s = true ∧ idxGet idx (makeKey K s) = none ∧ a = s := by
  by_cases hp : passes F s = false
  · simp [planAdd, hp] at h
  · have hp2 : passes F s = true := by
      cases h2 : passes F s
      · exact absurd h2 hp
      · rfl
    refine ⟨hp2, ?_⟩
    simp only [planAdd, if_neg hp] at h
    cases hidx : idxGet idx (makeKey K s) with
    | some old => rw [hidx] at h; cases h
    | none =>
      rw [hidx] at h
      simp only [List.mem_singleton] at h
      exact ⟨rfl, h⟩

theorem mem_syncPlan_upd {K : List String} {F : Option Filters} {rows records : List Rec}
    {u : Rec} (h : u ∈ (syncPlan K F rows records).1) :
    ∃ s ∈ records, u ∈ planUpd K F (buildIndex K rows) s := by
  rw [syncPlan_eq] at h
  simp only [List.mem_flatten, List.mem_map] at h
  obtain ⟨l, ⟨s, hs, hl⟩, hu⟩ := h
  exact ⟨s, hs, hl ▸ hu⟩

theorem mem_syncPlan_add {K : List String} {F : Option Filters} {rows records : List Rec}
    {a : Rec} (h : a ∈ (syncPlan K F rows records).2) :
    ∃ s ∈ records, a ∈ planAdd K F (buildIndex K rows) s := by
  rw [syncPlan_eq] at h
  simp only [List.mem_flatten, List.mem_map] at h
  obtain ⟨l, ⟨s, hs, hl⟩, ha⟩ := h
  exact ⟨s, hs, hl ▸ ha⟩

theorem idxGet_some_mem {K : List String} {rows : List Rec} {k : List Value} {old : Rec}
    (h : idxGet (buildIndex K rows) k = some old) :
    old ∈ rows ∧ makeKey K old = k := by
  rw [idxGet_buildIndex] at h
  have h2 := findLastP_some h
  exact ⟨h2.2, of_decide_eq_true h2.1⟩

theorem idxGet_none_forall {K : List String} {rows : List Rec} {k : List Value}
    (h : idxGet (buildIndex K rows) k = none) :
    ∀ r ∈ rows, makeKey K r ≠ k := by
  rw [idxGet_buildIndex] at h
  intro r hr
  have := List.find?_eq_none.mp h r (List.mem_reverse.mpr hr)
  simpa using this

theorem mem_fetchRows {table : List Rec} {F : Option Filters} {r : Rec}
    (h : r ∈ fetchRows table F) : r ∈ table := by
  cases F with
  | none => exact h
  | some fs => exact (List.mem_filter.mp h).1

theorem fetchRows_eq_filter (table : List Rec) (F : Option Filters) :
    fetchRows table F = table.filter (fun r => passes F r) := by
  cases F with
  | none => simp [fetchRows, passes]
  | some fs => rfl

theorem passes_of_mem_fetchRows {table : List Rec} {F : Option Filters} {r : Rec}
    (h : r ∈ fetchRows table F) : passes F r = true := by
  rw [fetchRows_eq_filter] at h
  exact (List.mem_filter.mp h).2

/-! Claim theorems: syncTable validation, addRecords chunking, missing key
columns, the target index, and key collapse. -/

/-- C5: a syncTable call with a filter raises the validation error, before
any use of the fetched table, exactly when some filter column is not among
the key columns; when every filter column is a key column this validation
never raises (the call can only fail later, with the distinct updateRecords
message). -/
theorem claim5_filter_validation (cs : Nat) (K : List String) (fs : Filters)
    (table records : List Rec) :
    ((¬ ∀ f ∈ fs, K.contains f.1 = true) →
      syncTable cs K (some fs) table records
        = Except.error "syncTable requires key columns to include all filter columns") ∧
    ((∀ f ∈ fs, K.contains f.1 = true) →
      syncTable cs K (some fs) table records
        ≠ Except.error "syncTable requires key columns to include all filter columns") := by
  constructor
  · intro hbad
    have hv : keyColsOk K (some fs) = false := by
      simp only [keyColsOk, List.all_eq_true]
      simpa using hbad
    rw [syncTable, if_pos hv]
  · intro hgood
    have hv : keyColsOk K (some fs) = true := by
      simp only [keyColsOk, List.all_eq_true]
      exact hgood
    rw [syncTable, if_neg (by simp [hv])]
    cases hu : updateRecords cs
        (syncPlan K (some fs) (fetchRows table (some fs)) records).1 with
    | ok reqs =>
      simp only [hu, Except.map]
      intro hcontra
      cases hcontra
    | error e =>
      have := updateRecords_error_msg hu
      subst this
      simp only [hu, Except.map]
      intro hcontra
      have : "updateRecord requires numeric id attribute in each record"
          = "syncTable requires key columns to include all filter columns" := by
        injection hcontra
      exact absurd this (by decide)

/-- C5 witness: with key columns A, B a filter on C raises the validation
error and a filter on A does not. -/
theorem claim5_witness :
    syncTable 500 ["A", "B"] (some [("C", [Value.vnum 1])]) [] []
      = Except.error "syncTable requires key columns to include all filter columns" ∧
    syncTable 500 ["A", "B"] (some [("A", [Value.vnum 1])]) [] []
      ≠ Except.error "syncTable requires key columns to include all filter columns" :=
  ⟨(claim5_filter_validation 500 ["A", "B"] [("C", [Value.vnum 1])] [] []).1 (by decide),
   (claim5_filter_validation 500 ["A", "B"] [("A", [Value.vnum 1])] [] []).2 (by decide)⟩

/-- C6: addRecords on an empty list returns no requests and no ids; on any
list it issues one request per chunk, the chunks have at most N records and
concatenate, in order, back to the input, there are ceil(M over N) of
them, and the returned ids are the concatenation of the per-chunk response
ids in chunk order. -/
theorem claim6_add_chunking (N : Nat) (hN : 0 < N) (records : List Rec)
    (respond : TableData → List Int) :
    (records = [] → addRecords N records respond = ([], [])) ∧
    (addRecords N records respond).1 = (chunksOf N records).map makeTableData ∧
    (chunksOf N records).flatten = records ∧
    (∀ c ∈ chunksOf N records, c.length ≤ N) ∧
    (chunksOf N records).length = (records.length + N - 1) / N ∧
    (addRecords N records respond).2
      = ((chunksOf N records).map (fun c => respond (makeTableData c))).flatten := by
  refine ⟨fun h => by simp [addRecords, h], ?_, chunksOf_flatten hN records,
    fun c hc => chunksOf_mem_length hN hc, chunksOf_length hN records, ?_⟩
  · by_cases h : records.length = 0
    · have : records = [] := List.length_eq_zero.mp h
      subst this
      simp [addRecords, chunksOf, chunksGo]
    · rw [addRecords, if_neg h]
  · by_cases h : records.length = 0
    · have : records = [] := List.length_eq_zero.mp h
      subst this
      simp [addRecords, chunksOf, chunksGo]
    · rw [addRecords, if_neg h]
      simp only []
      rw [foldl_append_eq, List.nil_append, List.map_map]
      rfl

/-- C6 witness: three records with a limit of two give two requests and
the ids concatenated in chunk order. -/
theorem claim6_witness :
    0 < 2 ∧
    (([[("A", Value.vnum 1)], [("A", Value.vnum 2)], [("A", Value.vnum 3)]] = ([] : List Rec) →
      addRecords 2 [[("A", Value.vnum 1)], [("A", Value.vnum 2)], [("A", Value.vnum 3)]]
        (fun d => [Int.ofNat d.length]) = ([], [])) ∧
    (addRecords 2 [[("A", Value.vnum 1)], [("A", Value.vnum 2)], [("A", Value.vnum 3)]]
        (fun d => [Int.ofNat d.length])).1
      = (chunksOf 2 [[("A", Value.vnum 1)], [("A", Value.vnum 2)], [("A", Value.vnum 3)]]).map
          makeTableData ∧
    (chunksOf 2 [[("A", Value.vnum 1)], [("A", Value.vnum 2)], [("A", Value.vnum 3)]]).flatten
      = [[("A", Value.vnum 1)], [("A", Value.vnum 2)], [("A", Value.vnum 3)]] ∧
    (∀ c ∈ chunksOf 2 [[("A", Value.vnum 1)], [("A", Value.vnum 2)], [("A", Value.vnum 3)]],
      c.length ≤ 2) ∧
    (chunksOf 2 [[("A", Value.vnum 1)], [("A", Value.vnum 2)], [("A", Value.vnum 3)]]).length
      = ([[("A", Value.vnum 1)], [("A", Value.vnum 2)], [("A", Value.vnum 3)]].length + 2 - 1) / 2 ∧
    (addRecords 2 [[("A", Value.vnum 1)], [("A", Value.vnum 2)], [("A", Value.vnum 3)]]
        (fun d => [Int.ofNat d.length])).2
      = ((chunksOf 2 [[("A", Value.vnum 1)], [("A", Value.vnum 2)], [("A", Value.vnum 3)]]).map
          (fun c => (fun d => [Int.ofNat d.length]) (makeTableData c))).flatten) :=
  ⟨by decide,
   claim6_add_chunking 2 (by decide)
     [[("A", Value.vnum 1)], [("A", Value.vnum 2)], [("A", Value.vnum 3)]]
     (fun d => [Int.ofNat d.length])⟩

/-- C4 counterexample: a source record missing the key column A is not
rejected; the call completes with no error, enqueueing and issuing the add
for the record, so the engine does not fail fast on a missing key column. -/
theorem claim4_counterexample :
    syncTable 500 ["A"] none [] [[("X", Value.vnum 1)]]
      = Except.ok (([], [[("X", Value.vnum 1)]]), [[("X", [Value.vnum 1])]]) := by
  rfl

/-- C4 amended: the engine performs no key-column presence check at all: a
missing key column is serialized as null in the composite key, and provided
the filter validation passes and the target rows carry valid ids, the call
always completes without error, whether or not key columns are present in
the source records. -/
theorem claim4_no_missing_key_failure (cs : Nat) (K : List String) (F : Option Filters)
    (table records : List Rec)
    (hV : keyColsOk K F = true)
    (hIds : ∀ r ∈ table, validId r = true) :
    ∃ out, syncTable cs K F table records = Except.ok out := by
  have hupd : ∀ u ∈ (syncPlan K F (fetchRows table F) records).1, validId u = true := by
    intro u hu
    obtain ⟨s, _hs, hmem⟩ := mem_syncPlan_upd hu
    obtain ⟨_hp, old, hidx, _hck, hequ⟩ := mem_planUpd hmem
    have hold := (idxGet_some_mem hidx).1
    have hvold := hIds old (mem_fetchRows hold)
    subst hequ
    rw [validId, getField_mkUpdate_id]
    rw [validId] at hvold
    exact hvold
  obtain ⟨reqs, hreqs⟩ := @updateRecords_ok cs _ hupd
  refine ⟨((syncPlan K F (fetchRows table F) records),
    reqs ++ addRecordsRequests cs (syncPlan K F (fetchRows table F) records).2), ?_⟩
  rw [syncTable, if_neg (by simp [hV])]
  simp only [hreqs, Except.map]

/-- C4 witness: the amended theorem applied to the call of the
counterexample, whose source record lacks the key column. -/
theorem claim4_witness :
    (keyColsOk ["A"] none = true ∧ ∀ r ∈ ([] : List Rec), validId r = true) ∧
    ∃ out, syncTable 500 ["A"] none [] [[("X", Value.vnum 1)]] = Except.ok out :=
  ⟨⟨by decide, by decide⟩,
   claim4_no_missing_key_failure 500 ["A"] none [] [[("X", Value.vnum 1)]]
     (by decide) (by decide)⟩

/-- C8: the target index is built in fetch order with the later record
winning on key collisions: whenever no record after r in fetch order shares
its key, looking up the key of r returns r itself; in particular every
record with a unique key appears in the index. -/
theorem claim8_index_last_wins (K : List String) (pre post : List Rec) (r : Rec)
    (hpost : ∀ r2 ∈ post, makeKey K r2 ≠ makeKey K r) :
    idxGet (buildIndex K (pre ++ r :: post)) (makeKey K r) = some r := by
  rw [idxGet_buildIndex]
  rw [show pre ++ r :: post = (pre ++ [r]) ++ post by simp]
  rw [findLastP_append]
  rw [findLastP_eq_none (fun x hx => by simp [hpost x hx])]
  rw [findLastP_append]
  have h1 : findLastP (fun r2 => decide (makeKey K r2 = makeKey K r)) [r] = some r := by
    simp [findLastP, List.find?]
  rw [h1]
  rfl

/-- C8 witness: with two same-key rows the later one is indexed, and the
unique-key row earlier in the list does not disturb it. -/
theorem claim8_witness :
    (∀ r2 ∈ [([("A", Value.vnum 9), ("id", Value.vnum 3)] : Rec)],
      makeKey ["A"] r2 ≠ makeKey ["A"] [("A", Value.vnum 1), ("id", Value.vnum 2)]) ∧
    idxGet (buildIndex ["A"]
        ([[("A", Value.vnum 1), ("id", Value.vnum 1)]]
          ++ [("A", Value.vnum 1), ("id", Value.vnum 2)]
            :: [[("A", Value.vnum 9), ("id", Value.vnum 3)]]))
      (makeKey ["A"] [("A", Value.vnum 1), ("id", Value.vnum 2)])
      = some [("A", Value.vnum 1), ("id", Value.vnum 2)] :=
  ⟨by decide,
   claim8_index_last_wins ["A"] [[("A", Value.vnum 1), ("id", Value.vnum 1)]]
     [[("A", Value.vnum 9), ("id", Value.vnum 3)]]
     [("A", Value.vnum 1), ("id", Value.vnum 2)] (by decide)⟩

/-- C10: the composite key serializes an absent key column exactly like an
explicit null, so a source record missing the column and a target record
holding null in it receive the same key, and the target record is found
when the index is probed with the key of the source record. -/
theorem claim10_undefined_null_key (K : List String) (s t : Rec) (c : String)
    (hs : getField s c = Value.vundef) (ht : getField t c = Value.vnull)
    (hrest : ∀ k ∈ K, k ≠ c → keyVal (getField s k) = keyVal (getField t k)) :
    makeKey K s = makeKey K t ∧ idxGet (buildIndex K [t]) (makeKey K s) = some t := by
  have hkey : makeKey K s = makeKey K t := by
    rw [makeKey, makeKey]
    apply List.map_eq_map_iff.mpr
    intro k hk
    by_cases hkc : k = c
    · subst hkc
      rw [hs, ht]
      rfl
    · exact hrest k hk hkc
  refine ⟨hkey, ?_⟩
  rw [hkey]
  simp [buildIndex, idxSet, idxGet]

/-- C10 witness: a record without column A is matched to the indexed
record holding null in A. -/
theorem claim10_witness :
    (getField [("B", Value.vnum 2)] "A" = Value.vundef ∧
     getField [("A", Value.vnull), ("B", Value.vnum 2)] "A" = Value.vnull ∧
     (∀ k ∈ ["A", "B"], k ≠ "A" →
       keyVal (getField [("B", Value.vnum 2)] k)
         = keyVal (getField [("A", Value.vnull), ("B", Value.vnum 2)] k))) ∧
    makeKey ["A", "B"] [("B", Value.vnum 2)]
      = makeKey ["A", "B"] [("A", Value.vnull), ("B", Value.vnum 2)] ∧
    idxGet (buildIndex ["A", "B"] [[("A", Value.vnull), ("B", Value.vnum 2)]])
        (makeKey ["A", "B"] [("B", Value.vnum 2)])
      = some [("A", Value.vnull), ("B", Value.vnum 2)] :=
  ⟨⟨by decide, by decide, by decide⟩,
   claim10_undefined_null_key ["A", "B"] [("B", Value.vnum 2)]
     [("A", Value.vnull), ("B", Value.vnum 2)] "A" (by decide) (by decide) (by decide)⟩

/-- C1: when a filter-passing source record matches an existing target
record by key and C is the set of columns of the source record whose value
differs from the target record under strict inequality, then: if C is
empty the record contributes no operation to the plan, and otherwise it
contributes exactly one update whose column set is exactly C plus id and
whose id is the id of the existing record. -/
theorem claim1_update_exact_columns (K : List String) (F : Option Filters)
    (rows pre post : List Rec) (s old : Rec)
    (hp : passes F s = true)
    (hm : idxGet (buildIndex K rows) (makeKey K s) = some old) :
    (changedKeys s old = [] →
      syncPlan K F rows (pre ++ s :: post) = syncPlan K F rows (pre ++ post)) ∧
    (changedKeys s old ≠ [] →
      ∃ u, (syncPlan K F rows (pre ++ s :: post)).1
          = (syncPlan K F rows pre).1 ++ u :: (syncPlan K F rows post).1 ∧
        (syncPlan K F rows (pre ++ s :: post)).2
          = (syncPlan K F rows pre).2 ++ (syncPlan K F rows post).2 ∧
        (∀ c, c ∈ recKeys u ↔ (c ∈ changedKeys s old ∨ c = "id")) ∧
        getField u "id" = getField old "id") := by
  have hnp : ¬ passes F s = false := by simp [hp]
  have ha : planAdd K F (buildIndex K rows) s = [] := by
    simp [planAdd, if_neg hnp, hm]
  constructor
  · intro hck
    have hu : planUpd K F (buildIndex K rows) s = [] := by
      simp [planUpd, if_neg hnp, hm, hck]
    rw [syncPlan_eq, syncPlan_eq]
    simp [List.map_append, List.flatten_append, hu, ha]
  · intro hck
    have hlen : (changedKeys s old).length > 0 := List.length_pos.mpr hck
    have hu : planUpd K F (buildIndex K rows) s
        = [mkUpdate s old (changedKeys s old)] := by
      simp [planUpd, if_neg hnp, hm, hlen]
    refine ⟨mkUpdate s old (changedKeys s old), ?_, ?_, ?_, getField_mkUpdate_id s old _⟩
    · simp only [syncPlan_eq]
      simp [List.map_append, List.flatten_append, hu]
    · simp only [syncPlan_eq]
      simp [List.map_append, List.flatten_append, ha]
    · intro c
      rw [mem_recKeys_mkUpdate]
      constructor
      · rintro (⟨h1, _⟩ | h1)
        · exact Or.inl h1
        · exact Or.inr h1
      · rintro (h1 | h1)
        · exact Or.inl ⟨h1, ((mem_changedKeys s old c).mp h1).1⟩
        · exact Or.inr h1

/-- C1 witness: the source record differing from its matched target row in
exactly the column X contributes the update carrying X and id only. -/
theorem claim1_witness :
    (passes none [("A", Value.vnum 1), ("X", Value.vnum 1)] = true ∧
     idxGet (buildIndex ["A"] [[("id", Value.vnum 1), ("A", Value.vnum 1), ("X", Value.vnum 0)]])
        (makeKey ["A"] [("A", Value.vnum 1), ("X", Value.vnum 1)])
       = some [("id", Value.vnum 1), ("A", Value.vnum 1), ("X", Value.vnum 0)]) ∧
    ((changedKeys [("A", Value.vnum 1), ("X", Value.vnum 1)]
        [("id", Value.vnum 1), ("A", Value.vnum 1), ("X", Value.vnum 0)] = [] →
      syncPlan ["A"] none [[("id", Value.vnum 1), ("A", Value.vnum 1), ("X", Value.vnum 0)]]
          ([] ++ [("A", Value.vnum 1), ("X", Value.vnum 1)] :: [])
        = syncPlan ["A"] none
            [[("id", Value.vnum 1), ("A", Value.vnum 1), ("X", Value.vnum 0)]] ([] ++ [])) ∧
    (changedKeys [("A", Value.vnum 1), ("X", Value.vnum 1)]
        [("id", Value.vnum 1), ("A", Value.vnum 1), ("X", Value.vnum 0)] ≠ [] →
      ∃ u, (syncPlan ["A"] none
            [[("id", Value.vnum 1), ("A", Value.vnum 1), ("X", Value.vnum 0)]]
            ([] ++ [("A", Value.vnum 1), ("X", Value.vnum 1)] :: [])).1
          = (syncPlan ["A"] none
              [[("id", Value.vnum 1), ("A", Value.vnum 1), ("X", Value.vnum 0)]] []).1
            ++ u :: (syncPlan ["A"] none
              [[("id", Value.vnum 1), ("A", Value.vnum 1), ("X", Value.vnum 0)]] []).1 ∧
        (syncPlan ["A"] none
            [[("id", Value.vnum 1), ("A", Value.vnum 1), ("X", Value.vnum 0)]]
            ([] ++ [("A", Value.vnum 1), ("X", Value.vnum 1)] :: [])).2
          = (syncPlan ["A"] none
              [[("id", Value.vnum 1), ("A", Value.vnum 1), ("X", Value.vnum 0)]] []).2
            ++ (syncPlan ["A"] none
              [[("id", Value.vnum 1), ("A", Value.vnum 1), ("X", Value.vnum 0)]] []).2 ∧
        (∀ c, c ∈ recKeys u ↔
          (c ∈ changedKeys [("A", Value.vnum 1), ("X", Value.vnum 1)]
            [("id", Value.vnum 1), ("A", Value.vnum 1), ("X", Value.vnum 0)] ∨ c = "id")) ∧
        getField u "id"
          = getField [("id", Value.vnum 1), ("A", Value.vnum 1), ("X", Value.vnum 0)] "id")) :=
  ⟨⟨by decide, by decide⟩,
   claim1_update_exact_columns ["A"] none
     [[("id", Value.vnum 1), ("A", Value.vnum 1), ("X", Value.vnum 0)]] [] []
     [("A", Value.vnum 1), ("X", Value.vnum 1)]
     [("id", Value.vnum 1), ("A", Value.vnum 1), ("X", Value.vnum 0)]
     (by decide) (by decide)⟩

/-- C3 counterexample: two source records carrying the same key both leave
an operation in the applied plan; the second does not overwrite the first,
so the plan carries two operations for that key, against the claim that at
most one survives. -/
theorem claim3_counterexample :
    (syncPlan ["A"] none [[("id", Value.vnum 1), ("A", Value.vnum 1), ("X", Value.vnum 0)]]
      [[("A", Value.vnum 1), ("X", Value.vnum 1)], [("A", Value.vnum 1), ("X", Value.vnum 2)]]).1
      = [[("X", Value.vnum 1), ("id", Value.vnum 1)],
         [("X", Value.vnum 2), ("id", Value.vnum 1)]] := by
  rfl

/-- C3 amended: duplicate-key source records are each evaluated
independently against the original target index (both updates are built
from the same original target record) and both operations are appended to
the plan in order; nothing is overwritten, so the plan may carry several
operations for one key. -/
theorem claim3_duplicate_keys_append (K : List String) (F : Option Filters)
    (rows pre mid post : List Rec) (s1 s2 old : Rec)
    (hp1 : passes F s1 = true) (hp2 : passes F s2 = true)
    (hkey : makeKey K s2 = makeKey K s1)
    (hm : idxGet (buildIndex K rows) (makeKey K s1) = some old)
    (hck1 : changedKeys s1 old ≠ []) (hck2 : changedKeys s2 old ≠ []) :
    (syncPlan K F rows (pre ++ s1 :: mid ++ s2 :: post)).1
      = (syncPlan K F rows pre).1
        ++ mkUpdate s1 old (changedKeys s1 old)
          :: ((syncPlan K F rows mid).1
            ++ mkUpdate s2 old (changedKeys s2 old) :: (syncPlan K F rows post).1) := by
  have hnp1 : ¬ passes F s1 = false := by simp [hp1]
  have hnp2 : ¬ passes F s2 = false := by simp [hp2]
  have hm2 : idxGet (buildIndex K rows) (makeKey K s2) = some old := by
    rw [hkey]; exact hm
  have hu1 : planUpd K F (buildIndex K rows) s1
      = [mkUpdate s1 old (changedKeys s1 old)] := by
    simp [planUpd, if_neg hnp1, hm, List.length_pos.mpr hck1]
  have hu2 : planUpd K F (buildIndex K rows) s2
      = [mkUpdate s2 old (changedKeys s2 old)] := by
    simp [planUpd, if_neg hnp2, hm2, List.length_pos.mpr hck2]
  simp only [syncPlan_eq]
  simp [List.map_append, List.flatten_append, hu1, hu2]

/-- C3 witness: the amended theorem applied to the duplicate-key
counterexample input. -/
theorem claim3_witness :
    (passes none [("A", Value.vnum 1), ("X", Value.vnum 1)] = true ∧
     passes none [("A", Value.vnum 1), ("X", Value.vnum 2)] = true ∧
     makeKey ["A"] [("A", Value.vnum 1), ("X", Value.vnum 2)]
       = makeKey ["A"] [("A", Value.vnum 1), ("X", Value.vnum 1)] ∧
     idxGet (buildIndex ["A"] [[("id", Value.vnum 1), ("A", Value.vnum 1), ("X", Value.vnum 0)]])
        (makeKey ["A"] [("A", Value.vnum 1), ("X", Value.vnum 1)])
       = some [("id", Value.vnum 1), ("A", Value.vnum 1), ("X", Value.vnum 0)] ∧
     changedKeys [("A", Value.vnum 1), ("X", Value.vnum 1)]
       [("id", Value.vnum 1), ("A", Value.vnum 1), ("X", Value.vnum 0)] ≠ [] ∧
     changedKeys [("A", Value.vnum 1), ("X", Value.vnum 2)]
       [("id", Value.vnum 1), ("A", Value.vnum 1), ("X", Value.vnum 0)] ≠ []) ∧
    (syncPlan ["A"] none [[("id", Value.vnum 1), ("A", Value.vnum 1), ("X", Value.vnum 0)]]
        ([] ++ [("A", Value.vnum 1), ("X", Value.vnum 1)]
          :: [] ++ [("A", Value.vnum 1), ("X", Value.vnum 2)] :: [])).1
      = (syncPlan ["A"] none
          [[("id", Value.vnum 1), ("A", Value.vnum 1), ("X", Value.vnum 0)]] []).1
        ++ mkUpdate [("A", Value.vnum 1), ("X", Value.vnum 1)]
            [("id", Value.vnum 1), ("A", Value.vnum 1), ("X", Value.vnum 0)]
            (changedKeys [("A", Value.vnum 1), ("X", Value.vnum 1)]
              [("id", Value.vnum 1), ("A", Value.vnum 1), ("X", Value.vnum 0)])
          :: ((syncPlan ["A"] none
              [[("id", Value.vnum 1), ("A", Value.vnum 1), ("X", Value.vnum 0)]] []).1
            ++ mkUpdate [("A", Value.vnum 1), ("X", Value.vnum 2)]
                [("id", Value.vnum 1), ("A", Value.vnum 1), ("X", Value.vnum 0)]
                (changedKeys [("A", Value.vnum 1), ("X", Value.vnum 2)]
                  [("id", Value.vnum 1), ("A", Value.vnum 1), ("X", Value.vnum 0)])
              :: (syncPlan ["A"] none
                [[("id", Value.vnum 1), ("A", Value.vnum 1), ("X", Value.vnum 0)]] []).1) :=
  ⟨⟨by decide, by decide, by decide, by decide, by decide, by decide⟩,
   claim3_duplicate_keys_append ["A"] none
     [[("id", Value.vnum 1), ("A", Value.vnum 1), ("X", Value.vnum 0)]] [] [] []
     [("A", Value.vnum 1), ("X", Value.vnum 1)] [("A", Value.vnum 1), ("X", Value.vnum 2)]
     [("id", Value.vnum 1), ("A", Value.vnum 1), ("X", Value.vnum 0)]
     (by decide) (by decide) (by decide) (by decide) (by decide) (by decide)⟩

/-- Valid id implies the id column is present. -/
theorem mem_id_of_validId {r : Rec} (h : validId r = true) : "id" ∈ recKeys r := by
  by_contra hmem
  rw [validId, getField_eq_vundef r "id" hmem] at h
  simp at h

/-- C7: updateRecords fails with the validation error, producing no
requests, exactly when some record lacks a valid numeric id; on valid
input it succeeds, and two well-formed records receive the same grouping
key exactly when they have the same set of non-id column identifiers,
independently of column order within the records. -/
theorem claim7_update_validation_grouping (cs : Nat) (records : List Rec) :
    ((∃ r ∈ records, ¬ validId r = true) →
      updateRecords cs records
        = Except.error "updateRecord requires numeric id attribute in each record") ∧
    ((∀ r ∈ records, validId r = true) →
      (∃ reqs, updateRecords cs records = Except.ok reqs) ∧
      ∀ r1 ∈ records, ∀ r2 ∈ records,
        (recKeys r1).Nodup → (recKeys r2).Nodup →
        (sortKeys r1 = sortKeys r2 ↔
          ∀ c, c ≠ "id" → (c ∈ recKeys r1 ↔ c ∈ recKeys r2))) := by
  constructor
  · rintro ⟨r, hr, hbad⟩
    have hbad2 : validId r = false := by
      cases h2 : validId r
      · rfl
      · exact absurd h2 hbad
    rw [updateRecords, buildGroups_error hr hbad2]
    rfl
  · intro hval
    refine ⟨updateRecords_ok hval, ?_⟩
    intro r1 h1 r2 h2 hn1 hn2
    constructor
    · intro heq c _hc
      have p1 : List.Perm (sortKeys r1) (recKeys r1) := List.perm_insertionSort _ _
      have p2 : List.Perm (sortKeys r2) (recKeys r2) := List.perm_insertionSort _ _
      have p2b : List.Perm (sortKeys r1) (recKeys r2) := by rw [heq]; exact p2
      have hp : List.Perm (recKeys r1) (recKeys r2) := p1.symm.trans p2b
      exact hp.mem_iff
    · intro hiff
      have hall : ∀ c, c ∈ recKeys r1 ↔ c ∈ recKeys r2 := by
        intro c
        by_cases hc : c = "id"
        · subst hc
          simp [mem_id_of_validId (hval r1 h1), mem_id_of_validId (hval r2 h2)]
        · exact hiff c hc
      have hp : List.Perm (recKeys r1) (recKeys r2) :=
        (List.perm_ext_iff_of_nodup hn1 hn2).mpr hall
      have hsp : List.Perm (sortKeys r1) (sortKeys r2) :=
        (List.perm_insertionSort _ _).trans (hp.trans (List.perm_insertionSort _ _).symm)
      exact List.eq_of_perm_of_sorted hsp
        (List.sorted_insertionSort _ _) (List.sorted_insertionSort _ _)

/-- C7 witness: a record without id makes the call fail, and two valid
records with reordered columns share a grouping key. -/
theorem claim7_witness :
    updateRecords 500 [[("A", Value.vnum 1)]]
      = Except.error "updateRecord requires numeric id attribute in each record" ∧
    (∃ reqs, updateRecords 500
        [[("id", Value.vnum 1), ("A", Value.vnum 1), ("B", Value.vnum 2)],
         [("B", Value.vnum 5), ("A", Value.vnum 6), ("id", Value.vnum 2)]]
      = Except.ok reqs) ∧
    sortKeys [("id", Value.vnum 1), ("A", Value.vnum 1), ("B", Value.vnum 2)]
      = sortKeys [("B", Value.vnum 5), ("A", Value.vnum 6), ("id", Value.vnum 2)] :=
  ⟨(claim7_update_validation_grouping 500 [[("A", Value.vnum 1)]]).1
     ⟨[("A", Value.vnum 1)], by decide, by decide⟩,
   ((claim7_update_validation_grouping 500
       [[("id", Value.vnum 1), ("A", Value.vnum 1), ("B", Value.vnum 2)],
        [("B", Value.vnum 5), ("A", Value.vnum 6), ("id", Value.vnum 2)]]).2
     (by decide)).1,
   (((claim7_update_validation_grouping 500
       [[("id", Value.vnum 1), ("A", Value.vnum 1), ("B", Value.vnum 2)],
        [("B", Value.vnum 5), ("A", Value.vnum 6), ("id", Value.vnum 2)]]).2
     (by decide)).2
     [("id", Value.vnum 1), ("A", Value.vnum 1), ("B", Value.vnum 2)] (by decide)
     [("B", Value.vnum 5), ("A", Value.vnum 6), ("id", Value.vnum 2)] (by decide)
     (by decide) (by decide)).mpr
     (by
       intro c hc
       simp only [recKeys, List.map_cons, List.map_nil, List.mem_cons, List.not_mem_nil,
         or_false]
       tauto)⟩

/-- C9 counterexample: an error raised inside onSync is not converted into
a structured error response; it is handed to the framework error handler
via next. -/
theorem claim9_counterexample :
    onSync 500 (Value.vnum 0) none (Except.ok []) (Except.ok []) [] []
      = HResponse.nextCall "Invalid or missing invoiceId" ∧
    onSync 500 (Value.vnum 0) none (Except.ok []) (Except.ok []) [] []
      ≠ HResponse.errorBody 400 "Invalid or missing invoiceId" := by
  exact ⟨rfl, by intro h; cases h⟩

/-- C9 amended: getCopyInfo converts every internal error into a status
400 response carrying the structured error field, while onSync either
sends the success response or delegates the error to the framework error
handler via next; neither handler swallows an error. -/
theorem claim9_error_channels (server : String) (invoiceId : Option Int)
    (srcFetch destFetch : Except String (List Rec)) (docInfo : Except String Rec)
    (cs : Nat) (now : Value) (itemsFetch : Except String (List Rec))
    (destInvoices destItems : List Rec) :
    ((∃ e, getCopyInfoBody server invoiceId srcFetch destFetch docInfo = Except.error e ∧
        getCopyInfo server invoiceId srcFetch destFetch docInfo
          = HResponse.errorBody 400 e) ∨
     (∃ r, getCopyInfo server invoiceId srcFetch destFetch docInfo = HResponse.send r)) ∧
    ((∃ e, onSyncBody cs now invoiceId srcFetch itemsFetch destInvoices destItems
          = Except.error e ∧
        onSync cs now invoiceId srcFetch itemsFetch destInvoices destItems
          = HResponse.nextCall e) ∨
     (∃ r, onSync cs now invoiceId srcFetch itemsFetch destInvoices destItems
          = HResponse.send r)) := by
  constructor
  · cases h : getCopyInfoBody server invoiceId srcFetch destFetch docInfo with
    | ok r => exact Or.inr ⟨r, by simp only [getCopyInfo, h]⟩
    | error e => exact Or.inl ⟨e, rfl, by simp only [getCopyInfo, h]⟩
  · cases h : onSyncBody cs now invoiceId srcFetch itemsFetch destInvoices destItems with
    | ok r => exact Or.inr ⟨r, by simp only [onSync, h]⟩
    | error e => exact Or.inl ⟨e, rfl, by simp only [onSync, h]⟩

/-! Lemmas about the merge of an update into a row. -/

theorem hasCol_eq_false_iff (r : Rec) (c : String) :
    hasCol r c = false ↔ c ∉ recKeys r := by
  constructor
  · intro h hm
    rw [(hasCol_iff r c).mpr hm] at h
    cases h
  · intro h
    cases h2 : hasCol r c
    · rfl
    · exact absurd ((hasCol_iff r c).mp h2) h

theorem hasCol_cons (k : String) (v : Value) (rest : Rec) (c : String) :
    hasCol ((k, v) :: rest) c = (decide (c = k) || hasCol rest c) := by
  by_cases h : c = k
  · subst h
    simp [hasCol_iff, recKeys]
  · cases h2 : hasCol rest c
    · have hnm : ¬ c ∈ recKeys rest := (hasCol_eq_false_iff rest c).mp h2
      have h3 : ¬ c ∈ recKeys ((k, v) :: rest) := by
        simp only [recKeys, List.map_cons, List.mem_cons, not_or]
        exact ⟨h, by simpa [recKeys] using hnm⟩
      rw [(hasCol_eq_false_iff _ _).mpr h3]
      simp [h, h2]
    · have hm : c ∈ recKeys rest := (hasCol_iff rest c).mp h2
      have h3 : c ∈ recKeys ((k, v) :: rest) := by
        simp only [recKeys, List.map_cons, List.mem_cons]
        right
        simpa [recKeys] using hm
      rw [(hasCol_iff _ _).mpr h3]
      simp [h2]

theorem getField_mergeRec {u : Rec} (hnodup : (recKeys u).Nodup) (t : Rec) (c : String) :
    getField (mergeRec t u) c
      = if hasCol u c = true then getField u c else getField t c := by
  induction u generalizing t with
  | nil => simp [mergeRec, hasCol, recKeys, List.contains]
  | cons kv rest ih =>
    obtain ⟨k, v⟩ := kv
    have hkey : recKeys ((k, v) :: rest) = k :: recKeys rest := rfl
    have hnodup2 : (recKeys rest).Nodup := by
      rw [hkey] at hnodup
      exact (List.nodup_cons.mp hnodup).2
    have hknotin : k ∉ recKeys rest := by
      rw [hkey] at hnodup
      exact (List.nodup_cons.mp hnodup).1
    have hmerge : mergeRec t ((k, v) :: rest) = mergeRec (setField t k v) rest := rfl
    rw [hmerge, ih hnodup2, hasCol_cons]
    by_cases hck : c = k
    · subst hck
      have h1 : hasCol rest c = false := by
        cases h2 : hasCol rest c
        · rfl
        · exact absurd ((hasCol_iff rest c).mp h2) hknotin
      rw [h1]
      simp only [decide_eq_true_eq, Bool.or_false]
      rw [if_neg (by simp), if_pos (by simp), getField_setField, if_pos rfl]
      show v = getField ((c, v) :: rest) c
      simp [getField]
    · have hd : decide (c = k) = false := by simp [hck]
      rw [hd, Bool.false_or]
      by_cases h3 : hasCol rest c = true
      · rw [if_pos h3, if_pos h3]
        show getField rest c = getField ((k, v) :: rest) c
        have : ¬ k = c := fun h => hck h.symm
        simp [getField, this]
      · rw [if_neg h3, if_neg h3, getField_setField, if_neg hck]

/-! Characterization of applying a list of updates. -/

theorem idOf_applyUpdate_merge {t u : Rec} (hnodup : (recKeys u).Nodup)
    (h : idOf t = idOf u) : idOf (mergeRec t u) = idOf t := by
  show getField (mergeRec t u) "id" = getField t "id"
  rw [getField_mergeRec hnodup]
  by_cases hc : hasCol u "id" = true
  · rw [if_pos hc]
    exact h.symm
  · rw [if_neg hc]

theorem map_idOf_applyUpdate {rows : List Rec} {u : Rec} (hnodup : (recKeys u).Nodup) :
    (applyUpdate rows u).map idOf = rows.map idOf := by
  rw [applyUpdate, List.map_map]
  apply List.map_eq_map_iff.mpr
  intro t _ht
  by_cases h : idOf t = idOf u
  · simp only [Function.comp_apply, if_pos h]
    exact idOf_applyUpdate_merge hnodup h
  · simp only [Function.comp_apply, if_neg h]

theorem applyUpdates_eq {us : List Rec} (rows : List Rec)
    (hnodup : ∀ u ∈ us, (recKeys u).Nodup)
    (hids : (us.map idOf).Nodup) :
    applyUpdates rows us
      = rows.map (fun t =>
          match us.find? (fun u => decide (idOf u = idOf t)) with
          | some u => mergeRec t u
          | none => t) := by
  induction us generalizing rows with
  | nil =>
    show rows = rows.map (fun t => t)
    simp
  | cons u us ih =>
    have hnu : (recKeys u).Nodup := hnodup u (List.mem_cons_self u us)
    have hnus : ∀ v ∈ us, (recKeys v).Nodup :=
      fun v hv => hnodup v (List.mem_cons_of_mem _ hv)
    have hidsus : (us.map idOf).Nodup := by
      simp only [List.map_cons, List.nodup_cons] at hids
      exact hids.2
    have hunotin : idOf u ∉ us.map idOf := by
      simp only [List.map_cons, List.nodup_cons] at hids
      exact hids.1
    show applyUpdates (applyUpdate rows u) us = _
    rw [ih (applyUpdate rows u) hnus hidsus, applyUpdate, List.map_map]
    apply List.map_eq_map_iff.mpr
    intro t _ht
    by_cases h : idOf t = idOf u
    · simp only [Function.comp_apply, if_pos h]
      have hidm : idOf (mergeRec t u) = idOf t := idOf_applyUpdate_merge hnu h
      have hfind : us.find? (fun v => decide (idOf v = idOf (mergeRec t u))) = none := by
        apply List.find?_eq_none.mpr
        intro v hv
        rw [hidm, h]
        simp only [decide_eq_true_eq]
        intro heq
        exact hunotin (heq ▸ List.mem_map_of_mem idOf hv)
      rw [hfind]
      have hfind2 : (u :: us).find? (fun v => decide (idOf v = idOf t)) = some u :=
        List.find?_cons_of_pos _ (by simp [h])
      rw [hfind2]
    · simp only [Function.comp_apply, if_neg h]
      have hfind2 : (u :: us).find? (fun v => decide (idOf v = idOf t))
          = us.find? (fun v => decide (idOf v = idOf t)) :=
        List.find?_cons_of_neg _ (by simp; exact fun heq => h heq.symm)
      rw [hfind2]

/-! Characterization of applying a list of additions. -/

theorem applyAdds_eq (rows adds : List Rec) :
    applyAdds rows adds = rows ++ addsWithIds rows adds := by
  induction adds generalizing rows with
  | nil => simp [applyAdds, addsWithIds]
  | cons a as ih =>
    show applyAdds (addRow rows a) as = _
    rw [ih]
    show (rows ++ [setField a "id" (.vnum (freshId rows))]) ++ _ = _
    rw [List.append_assoc]
    rfl

theorem mem_addsWithIds {x : Rec} :
    ∀ {rows adds : List Rec}, x ∈ addsWithIds rows adds →
      ∃ a ∈ adds, ∃ n : Int, x = setField a "id" (Value.vnum n) := by
  intro rows adds
  induction adds generalizing rows with
  | nil => intro h; cases h
  | cons a as ih =>
    intro h
    rcases List.mem_cons.mp h with h2 | h2
    · exact ⟨a, List.mem_cons_self a as, freshId rows, h2⟩
    · obtain ⟨a2, ha2, n, hn⟩ := ih h2
      exact ⟨a2, List.mem_cons_of_mem _ ha2, n, hn⟩

theorem addsWithIds_mem_intro {a : Rec} :
    ∀ {adds : List Rec} (rows : List Rec), a ∈ adds →
      ∃ n : Int, setField a "id" (Value.vnum n) ∈ addsWithIds rows adds := by
  intro adds
  induction adds with
  | nil => intro rows h; cases h
  | cons a2 as ih =>
    intro rows h
    rcases List.mem_cons.mp h with h2 | h2
    · subst h2
      exact ⟨freshId rows, List.mem_cons_self _ _⟩
    · obtain ⟨n, hn⟩ := ih _ h2
      exact ⟨n, List.mem_cons_of_mem _ hn⟩

/-! Key stability lemmas. -/

theorem makeKey_eq_iff {K : List String} {r1 r2 : Rec} :
    makeKey K r1 = makeKey K r2
      ↔ ∀ k ∈ K, keyVal (getField r1 k) = keyVal (getField r2 k) := by
  rw [makeKey, makeKey, List.map_eq_map_iff]

theorem makeKey_setField_id {K : List String} (hKid : "id" ∉ K) (r : Rec) (v : Value) :
    makeKey K (setField r "id" v) = makeKey K r := by
  apply makeKey_eq_iff.mpr
  intro k hk
  rw [getField_setField, if_neg (fun h => hKid (by rw [← h]; exact hk))]

theorem filter_cols_mem {K : List String} {fs : Filters}
    (hV : keyColsOk K (some fs) = true) : ∀ f ∈ fs, f.1 ∈ K := by
  intro f hf
  simp only [keyColsOk, List.all_eq_true] at hV
  have := hV f hf
  simpa [List.elem_iff, List.contains] using this

theorem all_congr_of_mem {l : List α} {p q : α → Bool} (h : ∀ x ∈ l, p x = q x) :
    l.all p = l.all q := by
  induction l with
  | nil => rfl
  | cons x xs ih =>
    simp only [List.all_cons]
    rw [h x (List.mem_cons_self x xs), ih (fun y hy => h y (List.mem_cons_of_mem _ hy))]

theorem passes_congr {F : Option Filters} {K : List String} {r1 r2 : Rec}
    (hV : keyColsOk K F = true)
    (h : ∀ c ∈ K, getField r1 c = getField r2 c) :
    passes F r1 = passes F r2 := by
  cases F with
  | none => rfl
  | some fs =>
    show filterMatches r1 fs = filterMatches r2 fs
    rw [filterMatches, filterMatches]
    apply all_congr_of_mem
    intro f hf
    rw [h f.1 (filter_cols_mem hV f hf)]

/-! The merged row produced for one matched source record. -/

theorem changedKeys_nodup {s : Rec} (old : Rec) (h : (recKeys s).Nodup) :
    (changedKeys s old).Nodup :=
  h.filter _

theorem mkUpdate_keys_nodup {s : Rec} (old : Rec) (hN : (recKeys s).Nodup)
    (hId : "id" ∉ recKeys s) :
    (recKeys (mkUpdate s old (changedKeys s old))).Nodup := by
  rw [mkUpdate]
  have hidp : "id" ∉ recKeys (pickRec s (changedKeys s old)) := by
    rw [recKeys_pickRec]
    intro hmem
    have h2 := (List.mem_filter.mp hmem).1
    exact hId ((mem_changedKeys s old "id").mp h2).1
  rw [recKeys_setField_not_mem _ _ _ hidp, recKeys_pickRec]
  refine List.Nodup.append ((changedKeys_nodup old hN).filter _) (List.nodup_singleton _) ?_
  intro x hx1 hx2
  rw [List.mem_singleton] at hx2
  subst hx2
  exact hidp (by rw [recKeys_pickRec]; exact hx1)

theorem hasCol_mkUpdate (s old : Rec) (ck : List String) (c : String) :
    hasCol (mkUpdate s old ck) c = true ↔ ((c ∈ ck ∧ c ∈ recKeys s) ∨ c = "id") := by
  rw [hasCol_iff, mem_recKeys_mkUpdate]

theorem merged_getField {s : Rec} (old : Rec) (hN : (recKeys s).Nodup)
    (hId : "id" ∉ recKeys s) (c : String) (hc : c ∈ recKeys s) :
    getField (mergeRec old (mkUpdate s old (changedKeys s old))) c = getField s c := by
  have hcid : ¬ c = "id" := fun h => hId (by rw [← h]; exact hc)
  rw [getField_mergeRec (mkUpdate_keys_nodup old hN hId)]
  by_cases hck : c ∈ changedKeys s old
  · rw [if_pos ((hasCol_mkUpdate s old _ c).mpr (Or.inl ⟨hck, hc⟩)),
      getField_mkUpdate _ _ _ _ hcid, if_pos ⟨hck, hc⟩]
  · have hcolm : c ∉ recKeys (mkUpdate s old (changedKeys s old)) := by
      rw [mem_recKeys_mkUpdate]
      rintro (⟨h1, _⟩ | h1)
      · exact hck h1
      · exact hcid h1
    rw [if_neg (by simp [(hasCol_eq_false_iff _ _).mpr hcolm])]
    have heq : getField s c = getField old c := by
      by_contra hne
      exact hck ((mem_changedKeys s old c).mpr ⟨hc, hne⟩)
    exact heq.symm

theorem merged_getField_not_mem {s : Rec} (old : Rec) (hN : (recKeys s).Nodup)
    (hId : "id" ∉ recKeys s) (c : String) (hcid : ¬ c = "id") (hcs : c ∉ recKeys s) :
    getField (mergeRec old (mkUpdate s old (changedKeys s old))) c = getField old c := by
  have hcolm : c ∉ recKeys (mkUpdate s old (changedKeys s old)) := by
    rw [mem_recKeys_mkUpdate]
    rintro (⟨_, h2⟩ | h1)
    · exact hcs h2
    · exact hcid h1
  rw [getField_mergeRec (mkUpdate_keys_nodup old hN hId),
    if_neg (by simp [(hasCol_eq_false_iff _ _).mpr hcolm])]

theorem merged_makeKey {K : List String} {s : Rec} (old : Rec) (hN : (recKeys s).Nodup)
    (hId : "id" ∉ recKeys s) (hKid : "id" ∉ K)
    (hkey : makeKey K old = makeKey K s) :
    makeKey K (mergeRec old (mkUpdate s old (changedKeys s old))) = makeKey K s := by
  apply makeKey_eq_iff.mpr
  intro k hk
  by_cases hks : k ∈ recKeys s
  · rw [merged_getField old hN hId k hks]
  · have hkid : ¬ k = "id" := fun h => hKid (by rw [← h]; exact hk)
    rw [merged_getField_not_mem old hN hId k hkid hks]
    exact makeKey_eq_iff.mp hkey k hk

theorem merged_idOf {s : Rec} (old : Rec) (hN : (recKeys s).Nodup)
    (hId : "id" ∉ recKeys s) :
    idOf (mergeRec old (mkUpdate s old (changedKeys s old))) = idOf old := by
  show getField _ "id" = getField old "id"
  rw [getField_mergeRec (mkUpdate_keys_nodup old hN hId),
    if_pos ((hasCol_mkUpdate s old _ "id").mpr (Or.inr rfl)), getField_mkUpdate_id]

theorem merged_passes {F : Option Filters} {K : List String} {s : Rec} (old : Rec)
    (hV : keyColsOk K F = true) (hKid : "id" ∉ K)
    (hN : (recKeys s).Nodup) (hId : "id" ∉ recKeys s)
    (hps : passes F s = true) (hpo : passes F old = true) :
    passes F (mergeRec old (mkUpdate s old (changedKeys s old))) = true := by
  cases F with
  | none => rfl
  | some fs =>
    show filterMatches _ fs = true
    rw [filterMatches, List.all_eq_true]
    intro f hf
    have hfk : f.1 ∈ K := filter_cols_mem hV f hf
    have hfid : ¬ f.1 = "id" := fun h => hKid (by rw [← h]; exact hfk)
    by_cases hks : f.1 ∈ recKeys s
    · rw [merged_getField old hN hId f.1 hks]
      have hps2 : filterMatches s fs = true := hps
      rw [filterMatches, List.all_eq_true] at hps2
      exact hps2 f hf
    · rw [merged_getField_not_mem old hN hId f.1 hfid hks]
      have hpo2 : filterMatches old fs = true := hpo
      rw [filterMatches, List.all_eq_true] at hpo2
      exact hpo2 f hf

/-! Values of the per-record plan contributions. -/

theorem planUpd_val_some {K : List String} {F : Option Filters} {idx : Index} {s old : Rec}
    (hp : passes F s = true) (hm : idxGet idx (makeKey K s) = some old) :
    planUpd K F idx s
      = if changedKeys s old = [] then [] else [mkUpdate s old (changedKeys s old)] := by
  have hnp : ¬ passes F s = false := by simp [hp]
  simp only [planUpd, if_neg hnp, hm]
  by_cases h : changedKeys s old = []
  · simp [h]
  · simp [h, List.length_pos.mpr h]

theorem planAdd_val_some {K : List String} {F : Option Filters} {idx : Index} {s old : Rec}
    (hp : passes F s = true) (hm : idxGet idx (makeKey K s) = some old) :
    planAdd K F idx s = [] := by
  have hnp : ¬ passes F s = false := by simp [hp]
  simp [planAdd, if_neg hnp, hm]

theorem planUpd_val_none {K : List String} {F : Option Filters} {idx : Index} {s : Rec}
    (hp : passes F s = true) (hm : idxGet idx (makeKey K s) = none) :
    planUpd K F idx s = [] := by
  have hnp : ¬ passes F s = false := by simp [hp]
  simp [planUpd, if_neg hnp, hm]

theorem planAdd_val_none {K : List String} {F : Option Filters} {idx : Index} {s : Rec}
    (hp : passes F s = true) (hm : idxGet idx (makeKey K s) = none) :
    planAdd K F idx s = [s] := by
  have hnp : ¬ passes F s = false := by simp [hp]
  simp [planAdd, if_neg hnp, hm]

theorem planUpd_not_pass {K : List String} {F : Option Filters} {idx : Index} {s : Rec}
    (hp : passes F s = false) :
    planUpd K F idx s = [] ∧ planAdd K F idx s = [] := by
  constructor <;> simp [planUpd, planAdd, hp]

theorem planUpd_cases (K : List String) (F : Option Filters) (idx : Index) (s : Rec) :
    planUpd K F idx s = [] ∨
      ∃ old, passes F s = true ∧ idxGet idx (makeKey K s) = some old ∧
        changedKeys s old ≠ [] ∧
        planUpd K F idx s = [mkUpdate s old (changedKeys s old)] := by
  by_cases hp : passes F s = true
  · cases hm : idxGet idx (makeKey K s) with
    | none => exact Or.inl (planUpd_val_none hp hm)
    | some old =>
      by_cases hck : changedKeys s old = []
      · exact Or.inl (by rw [planUpd_val_some hp hm]; simp [hck])
      · exact Or.inr ⟨old, hp, rfl, hck, by rw [planUpd_val_some hp hm]; simp [hck]⟩
  · have hp2 : passes F s = false := by
      cases h : passes F s
      · rfl
      · exact absurd h hp
    exact Or.inl (planUpd_not_pass hp2).1

theorem syncPlan_upd_intro {K : List String} {F : Option Filters} {rows records : List Rec}
    {s u : Rec} (hs : s ∈ records) (hu : u ∈ planUpd K F (buildIndex K rows) s) :
    u ∈ (syncPlan K F rows records).1 := by
  rw [syncPlan_eq]
  exact List.mem_flatten.mpr ⟨_, List.mem_map_of_mem _ hs, hu⟩

theorem syncPlan_add_intro {K : List String} {F : Option Filters} {rows records : List Rec}
    {s a : Rec} (hs : s ∈ records) (ha : a ∈ planAdd K F (buildIndex K rows) s) :
    a ∈ (syncPlan K F rows records).2 := by
  rw [syncPlan_eq]
  exact List.mem_flatten.mpr ⟨_, List.mem_map_of_mem _ hs, ha⟩

/-! Injectivity facts used for idempotence. -/

theorem pairwise_of_filter_pairwise {p : α → Bool} {R : α → α → Prop} :
    ∀ {l : List α}, (l.filter p).Pairwise R →
      l.Pairwise (fun a b => p a = true → p b = true → R a b) := by
  intro l
  induction l with
  | nil => intro _; exact List.Pairwise.nil
  | cons x xs ih =>
    intro h
    by_cases hx : p x = true
    · rw [List.filter_cons, if_pos hx] at h
      have h2 := List.pairwise_cons.mp h
      refine List.pairwise_cons.mpr ⟨?_, ih h2.2⟩
      intro y hy _ hpy
      exact h2.1 y (List.mem_filter.mpr ⟨hy, hpy⟩)
    · rw [List.filter_cons, if_neg hx] at h
      refine List.pairwise_cons.mpr ⟨?_, ih h⟩
      intro y _ hpx _
      exact absurd hpx hx

theorem key_inj_on_passing {K : List String} {F : Option Filters} {records : List Rec}
    (hKeys : ((records.filter (fun r => passes F r)).map (makeKey K)).Nodup) :
    ∀ s1 ∈ records, ∀ s2 ∈ records, passes F s1 = true → passes F s2 = true →
      makeKey K s1 = makeKey K s2 → s1 = s2 := by
  intro s1 h1 s2 h2 hp1 hp2 hk
  exact List.inj_on_of_nodup_map hKeys
    (List.mem_filter.mpr ⟨h1, hp1⟩) (List.mem_filter.mpr ⟨h2, hp2⟩) hk

theorem table_id_inj {table : List Rec} (hWf : (table.map idOf).Nodup) :
    ∀ t1 ∈ table, ∀ t2 ∈ table, idOf t1 = idOf t2 → t1 = t2 :=
  fun t1 h1 t2 h2 h => List.inj_on_of_nodup_map hWf h1 h2 h

theorem plan_upd_ids_nodup {K : List String} {F : Option Filters} {table records : List Rec}
    (hWf : (table.map idOf).Nodup)
    (hKeys : ((records.filter (fun r => passes F r)).map (makeKey K)).Nodup) :
    (((syncPlan K F (fetchRows table F) records).1).map idOf).Nodup := by
  rw [syncPlan_eq]
  rw [List.map_flatten, List.map_map]
  apply List.nodup_flatten.mpr
  constructor
  · intro l hl
    rw [List.mem_map] at hl
    obtain ⟨s, _hs, hleq⟩ := hl
    rcases planUpd_cases K F (buildIndex K (fetchRows table F)) s with h1 | ⟨old, _, _, _, h1⟩
    · rw [← hleq]
      simp [Function.comp, h1]
    · rw [← hleq]
      simp [Function.comp, h1]
  · rw [List.pairwise_map]
    have hpw : records.Pairwise (fun s1 s2 => passes F s1 = true → passes F s2 = true →
        makeKey K s1 ≠ makeKey K s2) := by
      have h1 : ((records.filter (fun r => passes F r)).map (makeKey K)).Pairwise (· ≠ ·) :=
        hKeys
      have h2 := (List.pairwise_map).mp h1
      exact pairwise_of_filter_pairwise h2
    refine hpw.imp ?_
    intro s1 s2 himp
    simp only [Function.comp_apply]
    rcases planUpd_cases K F (buildIndex K (fetchRows table F)) s1 with
      h1 | ⟨old1, hp1, hm1, _hck1, h1⟩
    · rw [h1]
      intro x hx1
      cases hx1
    · rcases planUpd_cases K F (buildIndex K (fetchRows table F)) s2 with
        h2 | ⟨old2, hp2, hm2, _hck2, h2⟩
      · rw [h2]
        intro x _hx1 hx2
        cases hx2
      · rw [h1, h2]
        intro x hx1 hx2
        simp only [List.map_cons, List.map_nil, List.mem_singleton] at hx1 hx2
        have hid1 : idOf (mkUpdate s1 old1 (changedKeys s1 old1)) = idOf old1 :=
          getField_mkUpdate_id s1 old1 _
        have hid2 : idOf (mkUpdate s2 old2 (changedKeys s2 old2)) = idOf old2 :=
          getField_mkUpdate_id s2 old2 _
        have hmem1 := idxGet_some_mem hm1
        have hmem2 := idxGet_some_mem hm2
        have holdeq : old1 = old2 := by
          apply table_id_inj hWf _ (mem_fetchRows hmem1.1) _ (mem_fetchRows hmem2.1)
          rw [← hid1, ← hid2, ← hx1, ← hx2]
        have hkeyeq : makeKey K s1 = makeKey K s2 := by
          rw [← hmem1.2, ← hmem2.2, holdeq]
        exact himp hp1 hp2 hkeyeq

theorem applyUpdates_eq_patch {us : List Rec} (rows : List Rec)
    (hnodup : ∀ u ∈ us, (recKeys u).Nodup) (hids : (us.map idOf).Nodup) :
    applyUpdates rows us = rows.map (rowPatch us) :=
  applyUpdates_eq rows hnodup hids

theorem second_call_lookup {K : List String} {F : Option Filters} {table records : List Rec}
    (hV : keyColsOk K F = true) (hKid : "id" ∉ K)
    (hWf : (table.map idOf).Nodup)
    (hSrcN : ∀ s ∈ records, (recKeys s).Nodup)
    (hSrcId : ∀ s ∈ records, "id" ∉ recKeys s)
    (hKeys : ((records.filter (fun r => passes F r)).map (makeKey K)).Nodup)
    {s : Rec} (hs : s ∈ records) (hp : passes F s = true) :
    ∃ r, idxGet (buildIndex K (fetchRows
          (applyPlan table (syncPlan K F (fetchRows table F) records)) F))
        (makeKey K s) = some r ∧ changedKeys s r = [] := by
  have hUN : ∀ u ∈ (syncPlan K F (fetchRows table F) records).1, (recKeys u).Nodup := by
    intro u hu
    obtain ⟨s2, hs2, hmem⟩ := mem_syncPlan_upd hu
    obtain ⟨_, old2, _, _, hequ⟩ := mem_planUpd hmem
    subst hequ
    exact mkUpdate_keys_nodup old2 (hSrcN s2 hs2) (hSrcId s2 hs2)
  have hUid : (((syncPlan K F (fetchRows table F) records).1).map idOf).Nodup :=
    plan_upd_ids_nodup hWf hKeys
  have hKeyInj := @key_inj_on_passing K _ _ hKeys
  have hTinj := table_id_inj hWf
  have hUfrom : ∀ u ∈ (syncPlan K F (fetchRows table F) records).1,
      ∃ s2 old2, s2 ∈ records ∧ passes F s2 = true ∧
        idxGet (buildIndex K (fetchRows table F)) (makeKey K s2) = some old2 ∧
        changedKeys s2 old2 ≠ [] ∧ u = mkUpdate s2 old2 (changedKeys s2 old2) := by
    intro u hu
    obtain ⟨s2, hs2, hmem⟩ := mem_syncPlan_upd hu
    obtain ⟨hp2, old2, hidx2, hck2, hequ⟩ := mem_planUpd hmem
    exact ⟨s2, old2, hs2, hp2, hidx2, List.length_pos.mp hck2, hequ⟩
  have hAfrom : ∀ a ∈ (syncPlan K F (fetchRows table F) records).2,
      a ∈ records ∧ passes F a = true ∧
        idxGet (buildIndex K (fetchRows table F)) (makeKey K a) = none := by
    intro a ha
    obtain ⟨s2, hs2, hmem⟩ := mem_syncPlan_add ha
    obtain ⟨hp2, hidx2, haeq⟩ := mem_planAdd hmem
    subst haeq
    exact ⟨hs2, hp2, hidx2⟩
  have hT1 : applyPlan table (syncPlan K F (fetchRows table F) records)
      = table.map (rowPatch (syncPlan K F (fetchRows table F) records).1)
        ++ addsWithIds (table.map (rowPatch (syncPlan K F (fetchRows table F) records).1))
            (syncPlan K F (fetchRows table F) records).2 := by
    rw [applyPlan, applyUpdates_eq_patch table hUN hUid, applyAdds_eq]
  have hlook : idxGet (buildIndex K (fetchRows
        (applyPlan table (syncPlan K F (fetchRows table F) records)) F)) (makeKey K s)
      = ((findLastP (rowPred F K (makeKey K s))
            (addsWithIds (table.map (rowPatch (syncPlan K F (fetchRows table F) records).1))
              (syncPlan K F (fetchRows table F) records).2)).or
          (findLastP (rowPred F K (makeKey K s))
            (table.map (rowPatch (syncPlan K F (fetchRows table F) records).1)))) := by
    rw [idxGet_buildIndex, fetchRows_eq_filter, findLastP_filter, hT1, findLastP_append]
    rfl
  cases hm : idxGet (buildIndex K (fetchRows table F)) (makeKey K s) with
  | some old =>
    obtain ⟨holdR0, holdkey⟩ := idxGet_some_mem hm
    have hold_table : old ∈ table := mem_fetchRows holdR0
    have hYnone : findLastP (rowPred F K (makeKey K s))
        (addsWithIds (table.map (rowPatch (syncPlan K F (fetchRows table F) records).1))
          (syncPlan K F (fetchRows table F) records).2) = none := by
      apply findLastP_eq_none
      intro x hx hpp
      obtain ⟨a, ha, n, hxeq⟩ := mem_addsWithIds hx
      obtain ⟨_haR, _hapass, hanone⟩ := hAfrom a ha
      rw [rowPred, Bool.and_eq_true] at hpp
      have hkx : makeKey K x = makeKey K s := of_decide_eq_true hpp.2
      rw [hxeq, makeKey_setField_id hKid] at hkx
      rw [hkx, hm] at hanone
      cases hanone
    have hstab : ∀ t ∈ table,
        rowPred F K (makeKey K s) (rowPatch (syncPlan K F (fetchRows table F) records).1 t)
          = rowPred F K (makeKey K s) t := by
      intro t ht
      cases hft : (syncPlan K F (fetchRows table F) records).1.find?
          (fun u => decide (idOf u = idOf t)) with
      | none => simp [rowPatch, hft]
      | some u =>
        have huU := List.mem_of_find?_eq_some hft
        have hfs := List.find?_some hft
        have hidu : idOf u = idOf t := by simpa using hfs
        obtain ⟨s2, old2, hs2, hp2, hidx2, _hck2, hueq⟩ := hUfrom u huU
        obtain ⟨hold2R, hold2key⟩ := idxGet_some_mem hidx2
        have hido2 : idOf old2 = idOf t := by
          rw [← hidu, hueq]
          exact (getField_mkUpdate_id s2 old2 _).symm
        have hteq : old2 = t := hTinj old2 (mem_fetchRows hold2R) t ht hido2
        subst hteq
        have hpatch : rowPatch (syncPlan K F (fetchRows table F) records).1 old2
            = mergeRec old2 u := by simp [rowPatch, hft]
        rw [hpatch, hueq]
        rw [rowPred, rowPred]
        have hm2pass : passes F (mergeRec old2 (mkUpdate s2 old2 (changedKeys s2 old2)))
            = true :=
          merged_passes old2 hV hKid (hSrcN s2 hs2) (hSrcId s2 hs2) hp2
            (passes_of_mem_fetchRows hold2R)
        have hm2key : makeKey K (mergeRec old2 (mkUpdate s2 old2 (changedKeys s2 old2)))
            = makeKey K s2 :=
          merged_makeKey old2 (hSrcN s2 hs2) (hSrcId s2 hs2) hKid hold2key
        rw [hm2pass, hm2key, passes_of_mem_fetchRows hold2R, hold2key]
    have hXval : findLastP (rowPred F K (makeKey K s))
        (table.map (rowPatch (syncPlan K F (fetchRows table F) records).1))
        = some (rowPatch (syncPlan K F (fetchRows table F) records).1 old) := by
      rw [findLastP_map]
      have hcongr := findLastP_congr hstab
      rw [hcongr]
      have hm2 := hm
      rw [idxGet_buildIndex, fetchRows_eq_filter, findLastP_filter] at hm2
      have hm3 : findLastP (rowPred F K (makeKey K s)) table = some old := by
        rw [← hm2]
        apply findLastP_congr
        intro x _
        rw [rowPred]
      rw [hm3]
      rfl
    refine ⟨rowPatch (syncPlan K F (fetchRows table F) records).1 old, ?_, ?_⟩
    · rw [hlook, hYnone, hXval]
      rfl
    · by_cases hck : changedKeys s old = []
      · have hfind : (syncPlan K F (fetchRows table F) records).1.find?
            (fun u => decide (idOf u = idOf old)) = none := by
          apply List.find?_eq_none.mpr
          intro u huU
          obtain ⟨s2, old2, hs2, hp2, hidx2, hck2, hueq⟩ := hUfrom u huU
          simp only [decide_eq_true_eq]
          intro hid
          have hido2 : idOf old2 = idOf old := by
            rw [← hid, hueq]
            exact (getField_mkUpdate_id s2 old2 _).symm
          have hmemo2 := idxGet_some_mem hidx2
          have ho2eq : old2 = old := hTinj old2 (mem_fetchRows hmemo2.1) old hold_table hido2
          have hks2 : makeKey K s2 = makeKey K s := by
            rw [← hmemo2.2, ho2eq, holdkey]
          have hs2eq : s2 = s := hKeyInj s2 hs2 s hs hp2 hp hks2
          rw [hs2eq, ho2eq] at hck2
          exact hck2 hck
        have hpatch : rowPatch (syncPlan K F (fetchRows table F) records).1 old = old := by
          simp [rowPatch, hfind]
        rw [hpatch]
        exact hck
      · have humem : mkUpdate s old (changedKeys s old)
            ∈ (syncPlan K F (fetchRows table F) records).1 := by
          apply syncPlan_upd_intro hs
          rw [planUpd_val_some hp hm, if_neg hck]
          exact List.mem_singleton.mpr rfl
        have hidus : idOf (mkUpdate s old (changedKeys s old)) = idOf old :=
          getField_mkUpdate_id s old _
        have hfind : (syncPlan K F (fetchRows table F) records).1.find?
            (fun u => decide (idOf u = idOf old))
            = some (mkUpdate s old (changedKeys s old)) := by
          apply find?_eq_some_of_unique humem (by simp [hidus])
          intro v hvU hvp
          obtain ⟨s2, old2, hs2, hp2, hidx2, _hck2, hveq⟩ := hUfrom v hvU
          have hid : idOf v = idOf old := of_decide_eq_true hvp
          have hido2 : idOf old2 = idOf old := by
            rw [← hid, hveq]
            exact (getField_mkUpdate_id s2 old2 _).symm
          have hmemo2 := idxGet_some_mem hidx2
          have ho2eq : old2 = old := hTinj old2 (mem_fetchRows hmemo2.1) old hold_table hido2
          have hks2 : makeKey K s2 = makeKey K s := by
            rw [← hmemo2.2, ho2eq, holdkey]
          have hs2eq : s2 = s := hKeyInj s2 hs2 s hs hp2 hp hks2
          rw [hveq, hs2eq, ho2eq]
        have hpatch : rowPatch (syncPlan K F (fetchRows table F) records).1 old
            = mergeRec old (mkUpdate s old (changedKeys s old)) := by
          simp [rowPatch, hfind]
        rw [hpatch]
        apply (changedKeys_eq_nil _ _).mpr
        intro c hc
        exact (merged_getField old (hSrcN s hs) (hSrcId s hs) c hc).symm
  | none =>
    have hsA : s ∈ (syncPlan K F (fetchRows table F) records).2 := by
      apply syncPlan_add_intro hs
      rw [planAdd_val_none hp hm]
      exact List.mem_singleton.mpr rfl
    obtain ⟨n, he0⟩ := addsWithIds_mem_intro
      (table.map (rowPatch (syncPlan K F (fetchRows table F) records).1)) hsA
    have hcongr0 : passes F (setField s "id" (Value.vnum n)) = passes F s := by
      apply passes_congr hV
      intro c hcK
      rw [getField_setField, if_neg (fun h => hKid (by rw [← h]; exact hcK))]
    have hpe0 : rowPred F K (makeKey K s) (setField s "id" (Value.vnum n)) = true := by
      rw [rowPred, hcongr0, hp, makeKey_setField_id hKid]
      simp
    obtain ⟨e, he⟩ := findLastP_isSome he0 hpe0
    obtain ⟨hpe, heY⟩ := findLastP_some he
    obtain ⟨a2, ha2, n2, heeq⟩ := mem_addsWithIds heY
    obtain ⟨ha2R, ha2pass, ha2none⟩ := hAfrom a2 ha2
    rw [rowPred, Bool.and_eq_true] at hpe
    have hkey2 : makeKey K a2 = makeKey K s := by
      have h2 := of_decide_eq_true hpe.2
      rw [heeq, makeKey_setField_id hKid] at h2
      exact h2
    have ha2s : a2 = s := hKeyInj a2 ha2R s hs ha2pass hp hkey2
    refine ⟨e, ?_, ?_⟩
    · rw [hlook, he]
      rfl
    · apply (changedKeys_eq_nil _ _).mpr
      intro c hc
      have hcid : ¬ c = "id" := fun h => hSrcId s hs (by rw [← h]; exact hc)
      rw [heeq, ha2s, getField_setField, if_neg hcid]

/-- C2 counterexample: with two source records sharing the key A, the
first call completes successfully (both updates are issued and applied in
order, updates before adds), but the second identical call computes a
non-empty plan, because the first duplicate differs again from the row
state the second duplicate left behind; reconcile is not idempotent as
claimed for arbitrary source lists. -/
theorem claim2_counterexample :
    syncTable 500 ["A"] none
        [[("id", Value.vnum 1), ("A", Value.vnum 1), ("X", Value.vnum 0)]]
        [[("A", Value.vnum 1), ("X", Value.vnum 1)], [("A", Value.vnum 1), ("X", Value.vnum 2)]]
      = Except.ok
          (([[("X", Value.vnum 1), ("id", Value.vnum 1)],
             [("X", Value.vnum 2), ("id", Value.vnum 1)]], []),
           [[("X", [Value.vnum 1, Value.vnum 2]), ("id", [Value.vnum 1, Value.vnum 1])]]) ∧
    syncPlan ["A"] none
        (applyPlan [[("id", Value.vnum 1), ("A", Value.vnum 1), ("X", Value.vnum 0)]]
          ([[("X", Value.vnum 1), ("id", Value.vnum 1)],
            [("X", Value.vnum 2), ("id", Value.vnum 1)]], []))
        [[("A", Value.vnum 1), ("X", Value.vnum 1)], [("A", Value.vnum 1), ("X", Value.vnum 2)]]
      = ([[("X", Value.vnum 1), ("id", Value.vnum 1)]], []) ∧
    ([[("X", Value.vnum 1), ("id", Value.vnum 1)]], ([] : List Rec))
      ≠ (([] : List Rec), ([] : List Rec)) := by
  exact ⟨by decide, by decide, by decide⟩

/-- C2 amended, with the remote apply semantics modelled from the spec:
provided the target rows carry pairwise-distinct valid ids (a remote
service invariant), id is not a key column, the source records are
well-formed objects without an id column, and the filter-passing source
records have pairwise-distinct composite keys, a syncTable call succeeds,
issues its update requests before its add requests, and a second identical
call against the table with the plan applied computes an empty Sync Plan
and issues no requests. -/
theorem claim2_sync_idempotent (cs : Nat) (K : List String) (F : Option Filters)
    (table records : List Rec)
    (hV : keyColsOk K F = true)
    (hKid : "id" ∉ K)
    (hWf : (table.map idOf).Nodup)
    (hIds : ∀ r ∈ table, validId r = true)
    (hSrcN : ∀ s ∈ records, (recKeys s).Nodup)
    (hSrcId : ∀ s ∈ records, "id" ∉ recKeys s)
    (hKeys : ((records.filter (fun r => passes F r)).map (makeKey K)).Nodup) :
    ∃ plan updReqs,
      syncTable cs K F table records
        = Except.ok (plan, updReqs ++ addRecordsRequests cs plan.2) ∧
      updateRecords cs plan.1 = Except.ok updReqs ∧
      syncTable cs K F (applyPlan table plan) records = Except.ok ((([], []), [])) := by
  have hnV : ¬ keyColsOk K F = false := by simp [hV]
  have hupdvalid : ∀ u ∈ (syncPlan K F (fetchRows table F) records).1, validId u = true := by
    intro u hu
    obtain ⟨s2, _hs2, hmem⟩ := mem_syncPlan_upd hu
    obtain ⟨_hp2, old2, hidx2, _hck2, hequ⟩ := mem_planUpd hmem
    have hvold := hIds old2 (mem_fetchRows (idxGet_some_mem hidx2).1)
    subst hequ
    rw [validId, getField_mkUpdate_id]
    rw [validId] at hvold
    exact hvold
  obtain ⟨updReqs, hupdReqs⟩ := @updateRecords_ok cs _ hupdvalid
  refine ⟨syncPlan K F (fetchRows table F) records, updReqs, ?_, hupdReqs, ?_⟩
  · rw [syncTable, if_neg hnV]
    simp only [hupdReqs, Except.map]
  · have hplan2 : syncPlan K F (fetchRows (applyPlan table
        (syncPlan K F (fetchRows table F) records)) F) records = ([], []) := by
      rw [syncPlan_eq]
      have hA1 : ∀ l ∈ records.map (planUpd K F (buildIndex K (fetchRows (applyPlan table
          (syncPlan K F (fetchRows table F) records)) F))), l = [] := by
        intro l hl
        rw [List.mem_map] at hl
        obtain ⟨s2, hs2, hleq⟩ := hl
        rw [← hleq]
        by_cases hp2 : passes F s2 = true
        · obtain ⟨r, hr, hck⟩ := second_call_lookup hV hKid hWf hSrcN hSrcId hKeys hs2 hp2
          rw [planUpd_val_some hp2 hr]
          simp [hck]
        · have hp3 : passes F s2 = false := by
            cases h : passes F s2
            · rfl
            · exact absurd h hp2
          exact (planUpd_not_pass hp3).1
      have hA2 : ∀ l ∈ records.map (planAdd K F (buildIndex K (fetchRows (applyPlan table
          (syncPlan K F (fetchRows table F) records)) F))), l = [] := by
        intro l hl
        rw [List.mem_map] at hl
        obtain ⟨s2, hs2, hleq⟩ := hl
        rw [← hleq]
        by_cases hp2 : passes F s2 = true
        · obtain ⟨r, hr, _hck⟩ := second_call_lookup hV hKid hWf hSrcN hSrcId hKeys hs2 hp2
          exact planAdd_val_some hp2 hr
        · have hp3 : passes F s2 = false := by
            cases h : passes F s2
            · rfl
            · exact absurd h hp2
          exact (planUpd_not_pass hp3).2
      rw [List.flatten_eq_nil_iff.mpr hA1, List.flatten_eq_nil_iff.mpr hA2]
    rw [syncTable, if_neg hnV]
    simp only [hplan2]
    rfl

/-- C2 witness: a target row and two source records with distinct keys;
the first call issues one update and one add, and the rerun computes the
empty plan. -/
theorem claim2_witness :
    (keyColsOk ["A"] none = true ∧
     "id" ∉ ["A"] ∧
     (([[("id", Value.vnum 1), ("A", Value.vnum 1), ("X", Value.vnum 0)]] : List Rec).map
       idOf).Nodup ∧
     (∀ r ∈ ([[("id", Value.vnum 1), ("A", Value.vnum 1), ("X", Value.vnum 0)]] : List Rec),
       validId r = true) ∧
     (∀ s ∈ ([[("A", Value.vnum 1), ("X", Value.vnum 1)],
              [("A", Value.vnum 2), ("X", Value.vnum 2)]] : List Rec),
       (recKeys s).Nodup) ∧
     (∀ s ∈ ([[("A", Value.vnum 1), ("X", Value.vnum 1)],
              [("A", Value.vnum 2), ("X", Value.vnum 2)]] : List Rec),
       "id" ∉ recKeys s) ∧
     ((([[("A", Value.vnum 1), ("X", Value.vnum 1)],
         [("A", Value.vnum 2), ("X", Value.vnum 2)]] : List Rec).filter
        (fun r => passes none r)).map (makeKey ["A"])).Nodup) ∧
    (∃ plan updReqs,
      syncTable 500 ["A"] none
          [[("id", Value.vnum 1), ("A", Value.vnum 1), ("X", Value.vnum 0)]]
          [[("A", Value.vnum 1), ("X", Value.vnum 1)], [("A", Value.vnum 2), ("X", Value.vnum 2)]]
        = Except.ok (plan, updReqs ++ addRecordsRequests 500 plan.2) ∧
      updateRecords 500 plan.1 = Except.ok updReqs ∧
      syncTable 500 ["A"] none
          (applyPlan [[("id", Value.vnum 1), ("A", Value.vnum 1), ("X", Value.vnum 0)]] plan)
          [[("A", Value.vnum 1), ("X", Value.vnum 1)], [("A", Value.vnum 2), ("X", Value.vnum 2)]]
        = Except.ok ((([], []), []))) :=
  ⟨⟨by decide, by decide, by decide, by decide, by decide, by decide, by decide⟩,
   claim2_sync_idempotent 500 ["A"] none
     [[("id", Value.vnum 1), ("A", Value.vnum 1), ("X", Value.vnum 0)]]
     [[("A", Value.vnum 1), ("X", Value.vnum 1)], [("A", Value.vnum 2), ("X", Value.vnum 2)]]
     (by decide) (by decide) (by decide) (by decide) (by decide) (by decide) (by decide)⟩

end GristSync
